import Mathlib

/-!
# Device2Device native bridge: verification development

Shallow embedding of the publish/subscribe entry points of `JniMethods.cpp`
and `jniComm.cpp`, of the UDP helper entry points, and of the non-Windows BMP
codec of `files/bitmap.c`.

Conventions.
* In `JniMethods.cpp`, which only declares `Jstring2Cstring`, a `jstring`
  argument is represented by the `std::string` that `Jstring2Cstring` yields
  for it.  In `jniComm.cpp`, which defines the function, a `jstring` is the
  `String` of its characters and the conversion is part of the model.
* `int`/`jint` values that are only stored and passed on are `Int`; where C
  arithmetic can overflow the result is reduced explicitly (`wrapInt32`,
  `% 2 ^ 32`).
* A `std::thread` is an entry of a thread table; the scheduler event
  `run tid` executes the body of thread `tid` (once).  Calls into `KaiSocket`
  and `UdpSocket`, whose code is not among the sources at hand, are recorded
  in a call log.
-/

namespace Device2Device

/-! ## Definitions: `JniMethods.cpp`, publish/subscribe -/

namespace JniMethods

/-- Values of `KaiSocket::RECVCALLBACK` occurring in the sources: the null
pointer of a value-initialised `PubSubParam` and the function `RecvHook`. -/
inductive RecvCallback where
  | null
  | RecvHook
  deriving DecidableEq, Repr

/-- The struct `PubSubParam` (`JniMethods.cpp` lines 66-75).  `env` and `clz`
are JNI handles, kept as identifiers. -/
structure PubSubParam where
  addr : String
  port : Int
  topic : String
  hook : RecvCallback
  env : Nat
  clz : Nat
  view : String
  id : Int
  deriving DecidableEq, Repr

/-- Initial value of the global `g_pubSubParam`: empty strings and
value-initialised (`{}`) members. -/
def g_pubSubParam_initial : PubSubParam :=
  ⟨"", 0, "", RecvCallback.null, 0, 0, "", 0⟩

/-- A call made on a `KaiSocket` object. -/
inductive SocketCall where
  | Initialize (addr : String) (port : Int)
  | Subscriber (topic : String) (hook : RecvCallback)
  | Publisher (topic payload : String)
  deriving DecidableEq, Repr

/-- The two thread bodies of `JniMethods.cpp`.
* `subscribe param`: the lambda of `KaiSubscribe`; `param` is the copy of
  `g_pubSubParam` that the `std::thread` constructor made when the thread
  was created.
* `publish topic payload`: the lambda of `KaiPublish`; `topic` and `payload`
  are its by-value thread arguments, the address and port are not captured. -/
inductive Worker where
  | subscribe (param : PubSubParam)
  | publish (topic payload : String)
  deriving DecidableEq, Repr

/-- State of the process as far as these entry points touch it. -/
structure JniState where
  g_pubSubParam : PubSubParam
  threads : List Worker
  finished : List Nat
  calls : List (Nat × SocketCall)
  deriving DecidableEq, Repr

/-- State at library load. -/
def JniState.initial : JniState :=
  ⟨g_pubSubParam_initial, [], [], []⟩

/-- Entry point `KaiSubscribe` (`JniMethods.cpp` lines 87-114): the eight
assignments to `g_pubSubParam` in source order, then the creation of the
thread with a copy of `g_pubSubParam`.  The returned `status` is read while
the detached thread may write it and is not part of this model. -/
def KaiSubscribe (s : JniState) (env clz : Nat) (addr : String) (port : Int)
    (topic viewId : String) (id : Int) : JniState :=
  let g := s.g_pubSubParam
  let g := { g with addr := addr }
  let g := { g with topic := topic }
  let g := { g with port := port }
  let g := { g with hook := RecvCallback.RecvHook }
  let g := { g with env := env }
  let g := { g with clz := clz }
  let g := { g with view := viewId }
  let g := { g with id := id }
  { s with g_pubSubParam := g, threads := s.threads ++ [Worker.subscribe g] }

/-- Entry point `KaiPublish` (`JniMethods.cpp` lines 116-131). -/
def KaiPublish (s : JniState) (topic payload : String) : JniState :=
  if s.g_pubSubParam.addr = "" ∨ s.g_pubSubParam.port = 0 then
    s
  else
    { s with threads := s.threads ++ [Worker.publish topic payload] }

/-- Socket calls made by a thread body, in order, when it runs while the
global configuration is `g`. -/
def Worker.body (g : PubSubParam) : Worker → List SocketCall
  | Worker.subscribe param =>
      [SocketCall.Initialize param.addr param.port,
       SocketCall.Subscriber param.topic param.hook]
  | Worker.publish topic payload =>
      [SocketCall.Initialize g.addr g.port,
       SocketCall.Publisher topic payload]

/-- The scheduler runs thread `tid`, if it exists and has not run yet. -/
def runWorker (s : JniState) (tid : Nat) : JniState :=
  if tid ∈ s.finished then s
  else
    match s.threads[tid]? with
    | none => s
    | some w =>
        { s with
          finished := tid :: s.finished,
          calls := s.calls ++ (w.body s.g_pubSubParam).map (fun c => (tid, c)) }

/-- What can happen next: a JNI call from the application, or the scheduler
running a created thread. -/
inductive JniEvent where
  | KaiSubscribe (env clz : Nat) (addr : String) (port : Int)
      (topic viewId : String) (id : Int)
  | KaiPublish (topic payload : String)
  | run (tid : Nat)
  deriving DecidableEq, Repr

/-- One event. -/
def step (s : JniState) : JniEvent → JniState
  | JniEvent.KaiSubscribe env clz addr port topic viewId id =>
      KaiSubscribe s env clz addr port topic viewId id
  | JniEvent.KaiPublish topic payload => KaiPublish s topic payload
  | JniEvent.run tid => runWorker s tid

/-- A history of events, oldest first. -/
def exec (s : JniState) (es : List JniEvent) : JniState :=
  es.foldl step s

/-- The configuration a `KaiSubscribe` call asks for, `none` for the other
events. -/
def JniEvent.subscribeArgs : JniEvent → Option PubSubParam
  | JniEvent.KaiSubscribe env clz addr port topic viewId id =>
      some ⟨addr, port, topic, RecvCallback.RecvHook, env, clz, viewId, id⟩
  | _ => none

/-- Arguments of the most recent `KaiSubscribe` call of a history (with
`hook = RecvHook`), or the initial value when there was none. -/
def mostRecentSubscribe (es : List JniEvent) : PubSubParam :=
  (es.reverse.findSome? JniEvent.subscribeArgs).getD g_pubSubParam_initial

/-- Only threads of the table are ever marked finished. -/
def FinishedBounded (s : JniState) : Prop :=
  ∀ t ∈ s.finished, t < s.threads.length

end JniMethods

/-! ## Definitions: `jniComm.cpp`, subscribe -/

namespace JniComm

open JniMethods (RecvCallback)

/-- A call made on a `KaiSocket` object by `jniComm.cpp`: the two-argument
constructor `KaiSocket kaiSocket(ip.c_str(), port)` and `Subscriber`. -/
inductive SocketCall where
  | construct (ip : String) (port : Int)
  | Subscriber (topic : String) (hook : RecvCallback)
  deriving DecidableEq, Repr

/-- The thread body of `KaiSubscribe` in `jniComm.cpp` with its four by-value
thread arguments. -/
structure Worker where
  ip : String
  port : Int
  topic : String
  hook : RecvCallback
  deriving DecidableEq, Repr

/-- Thread table and call log; `jniComm.cpp` has no shared configuration. -/
structure CommState where
  threads : List Worker
  finished : List Nat
  calls : List (Nat × SocketCall)
  deriving DecidableEq, Repr

/-- State at library load. -/
def CommState.initial : CommState :=
  ⟨[], [], []⟩

/-- Function `Jstring2Cstring` (`jniComm.cpp` lines 60-78) on the characters
of the Java string, whose UTF-8 bytes `getBytes` delivers.  For an empty
string `len` is 0, `rtn` stays a null pointer and `std::string temp(rtn)` is
undefined: the result is `none`.  Otherwise the bytes are copied, a NUL is
appended and the `std::string` is built from that C string, so it ends before
the first NUL character.  `malloc` is taken to succeed. -/
def Jstring2Cstring (jstr : String) : Option String :=
  if jstr.data = [] then none
  else some (String.mk (jstr.data.takeWhile (fun ch => ch ≠ Char.ofNat 0)))

/-- Entry point `KaiSubscribe` (`jniComm.cpp` lines 170-184): the two
conversions of lines 172-173, then the creation of the thread.  The result is
`none` when a conversion is undefined, so that the call does not get as far as
creating the thread.  The returned `status` is read while the detached thread
may write it and is not part of this model. -/
def KaiSubscribe (s : CommState) (ip : String) (port : Int) (topic : String) :
    Option CommState :=
  match Jstring2Cstring ip with
  | none => none
  | some ipv4 =>
    match Jstring2Cstring topic with
    | none => none
    | some msg =>
      some { s with threads := s.threads ++ [⟨ipv4, port, msg, RecvCallback.RecvHook⟩] }

/-- Socket calls made by the thread body, in order. -/
def Worker.body (w : Worker) : List SocketCall :=
  [SocketCall.construct w.ip w.port, SocketCall.Subscriber w.topic w.hook]

/-- The scheduler runs thread `tid`, if it exists and has not run yet. -/
def runWorker (s : CommState) (tid : Nat) : CommState :=
  if tid ∈ s.finished then s
  else
    match s.threads[tid]? with
    | none => s
    | some w =>
        { s with
          finished := tid :: s.finished,
          calls := s.calls ++ w.body.map (fun c => (tid, c)) }

/-- A JNI call from the application, or the scheduler running a thread. -/
inductive CommEvent where
  | KaiSubscribe (ip : String) (port : Int) (topic : String)
  | run (tid : Nat)
  deriving DecidableEq, Repr

/-- One event; `none` when the process does not survive it. -/
def step (s : CommState) : CommEvent → Option CommState
  | CommEvent.KaiSubscribe ip port topic => KaiSubscribe s ip port topic
  | CommEvent.run tid => some (runWorker s tid)

/-- A history of events, oldest first; `none` when the process does not
survive it. -/
def exec (s : CommState) : List CommEvent → Option CommState
  | [] => some s
  | e :: es =>
    match step s e with
    | none => none
    | some s1 => exec s1 es

/-- Only threads of the table are ever marked finished. -/
def FinishedBounded (s : CommState) : Prop :=
  ∀ t ∈ s.finished, t < s.threads.length

/-- A Java string with a NUL character inside: `t1`, NUL, `x`. -/
def topicWithNul : String :=
  String.mk ['t', '1', Char.ofNat 0, 'x']

end JniComm

/-! ## Definitions: UDP helper entry points `sendUdpData` and `startServer` -/

/-- Value of a mathematical integer after conversion to a 32-bit two's
complement `int`. -/
def wrapInt32 (x : Int) : Int :=
  (x + 2 ^ 31) % 2 ^ 32 - 2 ^ 31

namespace JniMethods

/-- Receive loop of the `startServer` thread (`JniMethods.cpp` lines 272-275):
`do { size = sock->Receiver(msg, total); usleep(10000); } while (size != 0);`.
`recv k` is the value the `k`-th `Receiver` call returns (calls are numbered
from 0) and `k` is the number of calls made so far.  The result is the total
number of `Receiver` calls made when the loop exits; `none` means that the
loop is still running after `fuel` iterations. -/
def receiveLoop (recv : Nat → Int) : Nat → Nat → Option Nat
  | 0, _ => none
  | fuel + 1, k =>
      let size := recv k
      if size ≠ 0 then receiveLoop recv fuel (k + 1) else some (k + 1)

/-- The globals and the observable effects of `sendUdpData` / `startServer`
in `JniMethods.cpp`: `g_msgLen`, the number of `startServer` threads created
and not yet started, the calls `Sender(tx, count)` made (oldest first) and the
buffer length `total` of each started thread (oldest first). -/
structure UdpState where
  g_msgLen : Int
  pendingServers : Nat
  senderCalls : List (String × Nat)
  receiverLens : List Int
  deriving DecidableEq, Repr

/-- State at library load: `static int g_msgLen` is zero-initialised. -/
def UdpState.initial : UdpState :=
  ⟨0, 0, [], []⟩

/-- Entry point `sendUdpData` (`JniMethods.cpp` lines 245-262): stores `len`
in `g_msgLen` and hands `(unsigned int) len + 1` bytes to `Sender`. -/
def sendUdpData (s : UdpState) (text : String) (len : Int) : UdpState :=
  { s with
    g_msgLen := len,
    senderCalls := s.senderCalls ++ [(text, ((len % 2 ^ 32).toNat + 1) % 2 ^ 32)] }

/-- Entry point `startServer` (`JniMethods.cpp` lines 264-282): creates the
detached thread. -/
def startServer (s : UdpState) : UdpState :=
  { s with pendingServers := s.pendingServers + 1 }

/-- A created `startServer` thread starts running: it computes
`total = g_msgLen + (int)sizeof(NetProtocol)` once; every `Receiver` call of
its loop gets `total` as buffer length.  `sizeofNetProtocol` stands for
`sizeof(NetProtocol)`, whose declaration (`network/UdpSocket.h`) is not part
of the sources at hand. -/
def serverStart (sizeofNetProtocol : Nat) (s : UdpState) : UdpState :=
  match s.pendingServers with
  | 0 => s
  | n + 1 =>
      let total := wrapInt32 (s.g_msgLen + wrapInt32 sizeofNetProtocol)
      { s with pendingServers := n, receiverLens := s.receiverLens ++ [total] }

/-- A JNI call from the application, or a created server thread starting. -/
inductive UdpEvent where
  | sendUdpData (text : String) (len : Int)
  | startServer
  | serverStart
  deriving DecidableEq, Repr

/-- One event. -/
def udpStep (sizeofNetProtocol : Nat) (s : UdpState) : UdpEvent → UdpState
  | UdpEvent.sendUdpData text len => sendUdpData s text len
  | UdpEvent.startServer => startServer s
  | UdpEvent.serverStart => serverStart sizeofNetProtocol s

/-- A history of events, oldest first. -/
def udpExec (sizeofNetProtocol : Nat) (s : UdpState) (es : List UdpEvent) :
    UdpState :=
  es.foldl (udpStep sizeofNetProtocol) s

/-- Every receive buffer is at least as long as every datagram handed to
`Sender`. -/
def BufferCoversSenders (s : UdpState) : Prop :=
  ∀ b ∈ s.receiverLens, ∀ c ∈ s.senderCalls, (c.2 : Int) ≤ b

/-- Whether an event is a `sendUdpData` call. -/
def UdpEvent.isSend : UdpEvent → Bool
  | UdpEvent.sendUdpData _ _ => true
  | _ => false

/-- A `Receiver` that fails once (returns -1) and then reports 0. -/
def failOnceThenClosed (k : Nat) : Int :=
  if k = 0 then -1 else 0

end JniMethods

namespace JniComm

/-- Receive loop of the `startServer` thread (`jniComm.cpp` lines 318-320):
`while (sock->Receiver(buff, 36) != 0) { usleep(10000); }`.  Same conventions
as `JniMethods.receiveLoop`. -/
def receiveLoop (recv : Nat → Int) : Nat → Nat → Option Nat
  | 0, _ => none
  | fuel + 1, k =>
      if recv k ≠ 0 then receiveLoop recv fuel (k + 1) else some (k + 1)

end JniComm

/-! ## Definitions: the wire protocol read by `RecvHook`

`RecvHook` reads `msg.head.topic`, `msg.head.etag`, `msg.data.stat` and
`msg.data.body` of a `KaiSocket::Message`.  The header `kaics/KaiSocket.h` and
the encoder and decoder inside `KaiSocket` are not among the sources; they are
modelled from sections 4.1 and 6 of the specification. -/

namespace WireProtocol

/-- Modelled from the spec: the protocol constants `TOPIC_CAP`, `STATUS_CAP`
and `BODY_CAP` of section 6, "agreed by all participants"; their values are
fixed in the missing header `kaics/KaiSocket.h`. -/
structure Capacities where
  TOPIC_CAP : Nat
  STATUS_CAP : Nat
  BODY_CAP : Nat
  deriving DecidableEq, Repr

/-- Modelled from the spec: a decoded message (section 3), i.e. the missing
type `KaiSocket::Message` as `RecvHook` reads it: the header text `topic`, the
one-byte role tag `etag`, the status text `stat` and the payload text `body`. -/
structure Message where
  topic : List (Fin 256)
  etag : Fin 256
  stat : List (Fin 256)
  body : List (Fin 256)
  deriving DecidableEq, Repr

/-- Modelled from the spec: the two failures of the missing codec named in
section 4.1. -/
inductive WireError where
  | FieldTooLong
  | TruncatedMessage
  deriving DecidableEq, Repr

/-- Modelled from the spec: the constant total size `S` of a datagram of the
missing codec, the size of `struct Message` of section 6 (all fields
fixed-width, one byte for `role_tag`). -/
def frameSize (c : Capacities) : Nat :=
  c.TOPIC_CAP + 1 + c.STATUS_CAP + c.BODY_CAP

/-- Modelled from the spec: a text stored by the missing encoder in a
fixed-width `char` field of `cap` bytes: its bytes, then NUL bytes up to the
width. -/
def padField (cap : Nat) (text : List (Fin 256)) : List (Fin 256) :=
  text ++ List.replicate (cap - text.length) 0

/-- Modelled from the spec: the text the missing decoder (and `%s` in
`RecvHook`) finds in a fixed-width `char` field: the bytes before the first
NUL, the whole field when it holds none. -/
def fieldText (field : List (Fin 256)) : List (Fin 256) :=
  field.takeWhile (fun b => b != 0)

/-- Modelled from the spec: `encode(topic, role, status, payload) -> bytes` of
section 4.1 for the missing `KaiSocket` encoder: `FieldTooLong` when a text
exceeds its capacity, otherwise the fields of `struct Message` in order. -/
def encode (c : Capacities) (topic : List (Fin 256)) (role : Fin 256)
    (status payload : List (Fin 256)) : Except WireError (List (Fin 256)) :=
  if c.TOPIC_CAP < topic.length ∨ c.STATUS_CAP < status.length
      ∨ c.BODY_CAP < payload.length then
    Except.error WireError.FieldTooLong
  else
    Except.ok (padField c.TOPIC_CAP topic ++ ([role]
      ++ (padField c.STATUS_CAP status ++ padField c.BODY_CAP payload)))

/-- Modelled from the spec: `decode(bytes) -> Message` of section 4.1 for the
missing `KaiSocket` decoder: `TruncatedMessage` when the input is shorter than
`S`; otherwise the four fields are read at their fixed offsets and bytes
beyond `S` are ignored. -/
def decode (c : Capacities) (bytes : List (Fin 256)) : Except WireError Message :=
  if bytes.length < frameSize c then
    Except.error WireError.TruncatedMessage
  else
    let topicField := bytes.take c.TOPIC_CAP
    let r1 := bytes.drop c.TOPIC_CAP
    let etag := r1.headD 0
    let r2 := r1.drop 1
    let statField := r2.take c.STATUS_CAP
    let r3 := r2.drop c.STATUS_CAP
    let bodyField := r3.take c.BODY_CAP
    Except.ok ⟨fieldText topicField, etag, fieldText statField, fieldText bodyField⟩

/-- Modelled from the spec: a text field of a valid message for the missing
codec: a C text, which holds no NUL byte. -/
def IsText (text : List (Fin 256)) : Prop :=
  ∀ b ∈ text, b ≠ 0

end WireProtocol

/-! ## Definitions: `files/bitmap.c`, non-Windows branch

A byte is a natural number; every byte that enters or leaves a file is
reduced modulo 256, as the conversion to `unsigned char` does.  A file opened
for reading is the list of the bytes not yet read.  `int` values are
mathematical integers reduced by `wrapInt32` where C arithmetic can leave the
32-bit range; bitwise operations on `int` act on the two's complement bit
pattern. -/

namespace Bitmap

/-- The value `EOF` of `<stdio.h>`. -/
def EOF : Int := -1

/-- Conversion of an `int` to `unsigned char`. -/
def toUChar (c : Int) : Nat :=
  (c % 256).toNat

/-- A file opened with `fopen(filename, "rb")`: the bytes not yet read. -/
abbrev InFile := List Nat

/-- Library function `getc` on a file opened for reading: the next byte as a
non-negative `int`, or `EOF` at the end of the file. -/
def getc : InFile → Int × InFile
  | [] => (EOF, [])
  | b :: rest => (((b % 256 : Nat) : Int), rest)

/-- A file opened with `fopen(filename, "wb")`: the bytes written so far and
the outcomes of the byte writes still to come (`true`: that write fails; an
exhausted list: every further write succeeds). -/
structure OutFile where
  bytes : List Nat
  faults : List Bool
  deriving DecidableEq, Repr

/-- Library function `putc`: writes `(unsigned char) c` and returns it as an
`int`, or returns `EOF` when the write fails. -/
def putc (c : Int) (fp : OutFile) : Int × OutFile :=
  match fp.faults with
  | true :: rest => (EOF, { fp with faults := rest })
  | false :: rest =>
      ((toUChar c : Int), { bytes := fp.bytes ++ [toUChar c], faults := rest })
  | [] => ((toUChar c : Int), { fp with bytes := fp.bytes ++ [toUChar c] })

/-- Function `read_word` (`bitmap.c` lines 428-437). -/
def read_word (fp : InFile) : Nat × InFile :=
  let r0 := getc fp
  let b0 := toUChar r0.1
  let r1 := getc r0.2
  let b1 := toUChar r1.1
  (((b1 <<< 8) ||| b0) % 2 ^ 16, r1.2)

/-- Function `read_dword` (`bitmap.c` lines 444-455): the `int` value of the
expression, converted to `unsigned int`. -/
def read_dword (fp : InFile) : Nat × InFile :=
  let r0 := getc fp
  let b0 := toUChar r0.1
  let r1 := getc r0.2
  let b1 := toUChar r1.1
  let r2 := getc r1.2
  let b2 := toUChar r2.1
  let r3 := getc r2.2
  let b3 := toUChar r3.1
  let pattern : Nat := (((((b3 <<< 8) ||| b2) <<< 8) ||| b1) <<< 8) ||| b0
  ((wrapInt32 (pattern : Int) % 2 ^ 32).toNat, r3.2)

/-- Function `read_long` (`bitmap.c` lines 462-473). -/
def read_long (fp : InFile) : Int × InFile :=
  let r0 := getc fp
  let b0 := toUChar r0.1
  let r1 := getc r0.2
  let b1 := toUChar r1.1
  let r2 := getc r1.2
  let b2 := toUChar r2.1
  let r3 := getc r2.2
  let b3 := toUChar r3.1
  let pattern : Nat := (((((b3 <<< 8) ||| b2) <<< 8) ||| b1) <<< 8) ||| b0
  (wrapInt32 (pattern : Int), r3.2)

/-- Function `write_word` (`bitmap.c` lines 480-486); `w` is an
`unsigned short` value. -/
def write_word (fp : OutFile) (w : Nat) : Int × OutFile :=
  let r0 := putc (w : Int) fp
  putc ((w >>> 8 : Nat) : Int) r0.2

/-- Function `write_dword` (`bitmap.c` lines 493-501); `dw` is an
`unsigned int` value. -/
def write_dword (fp : OutFile) (dw : Nat) : Int × OutFile :=
  let r0 := putc (dw : Int) fp
  let r1 := putc ((dw >>> 8 : Nat) : Int) r0.2
  let r2 := putc ((dw >>> 16 : Nat) : Int) r1.2
  putc ((dw >>> 24 : Nat) : Int) r2.2

/-- Function `write_long` (`bitmap.c` lines 508-516); `l` is an `int` value
and `>>` on it is the arithmetic shift. -/
def write_long (fp : OutFile) (l : Int) : Int × OutFile :=
  let r0 := putc l fp
  let r1 := putc (l >>> (8 : Nat)) r0.2
  let r2 := putc (l >>> (16 : Nat)) r1.2
  putc (l >>> (24 : Nat)) r2.2

/-- The four bytes of a 32-bit pattern, least significant first. -/
def littleEndian32 (u : Nat) : List Nat :=
  [u % 256, u / 2 ^ 8 % 256, u / 2 ^ 16 % 256, u / 2 ^ 24 % 256]

/-- The two bytes of a 16-bit pattern, least significant first. -/
def littleEndian16 (u : Nat) : List Nat :=
  [u % 256, u / 2 ^ 8 % 256]

/-- The struct `BITMAPINFOHEADER` of `bitmap.h` (not among the sources), with
the field types of the customary declaration, which the uses in `bitmap.c`
agree with: `biWidth`, `biHeight` and the two resolutions are `int` (written
with `write_long`, `abs(biHeight)`), `biPlanes` and `biBitCount` are
`unsigned short`, the others `unsigned int`. -/
structure BITMAPINFOHEADER where
  biSize : Nat
  biWidth : Int
  biHeight : Int
  biPlanes : Nat
  biBitCount : Nat
  biCompression : Nat
  biSizeImage : Nat
  biXPelsPerMeter : Int
  biYPelsPerMeter : Int
  biClrUsed : Nat
  biClrImportant : Nat
  deriving DecidableEq, Repr

/-- The struct `BITMAPINFO`: the header and the bytes stored in
`bmiColors`. -/
structure BITMAPINFO where
  bmiHeader : BITMAPINFOHEADER
  bmiColors : List Nat
  deriving DecidableEq, Repr

/-- Outcome of a call `fread(ptr, size, nmemb, fp)`: the number of complete
items read (the return value), the bytes stored at `ptr` and the file
afterwards. -/
structure FreadResult where
  items : Nat
  data : List Nat
  rest : InFile
  deriving DecidableEq, Repr

/-- Library function `fread` on a file opened for reading: up to
`size * nmemb` bytes are read. -/
def fread (size nmemb : Nat) (fp : InFile) : FreadResult :=
  let data := (fp.take (size * nmemb)).map (fun b => b % 256)
  ⟨if size = 0 then 0 else data.length / size, data, fp.drop (size * nmemb)⟩

/-- Library function `abs` on `int` (`abs(INT_MIN)` wraps). -/
def abs32 (x : Int) : Int :=
  wrapInt32 (if x < 0 then -x else x)

/-- Lines 276-279 of `LoadDIBitmap` (and 342-347 of `SaveDIBitmap`): the `int`
variable `bitsize`: `biSizeImage` converted to `int`, or, when that is 0,
`(biWidth * biBitCount + 7) / 8 * abs(biHeight)` in `int` arithmetic. -/
def bitmapBitsize (h : BITMAPINFOHEADER) : Int :=
  if wrapInt32 (h.biSizeImage : Int) = 0 then
    wrapInt32 (Int.tdiv (wrapInt32 (wrapInt32 (h.biWidth * (h.biBitCount : Int)) + 7)) 8
      * abs32 h.biHeight)
  else
    wrapInt32 (h.biSizeImage : Int)

/-- Exchange of the bytes at offsets `i` and `j` of a buffer
(`temp = ptr[0]; ptr[0] = ptr[2]; ptr[2] = temp;`).  An access outside the
buffer is undefined in C; the model reads 0 and drops the write there. -/
def swapBytes (bits : List Nat) (i j : Nat) : List Nat :=
  let temp := bits.getD i 0
  (bits.set i (bits.getD j 0)).set j temp

/-- Inner loop of the red/blue exchange: `x` pixels from offset `p` on, three
bytes apart. -/
def swapRow (bits : List Nat) (p : Nat) : Nat → List Nat
  | 0 => bits
  | x + 1 => swapRow (swapBytes bits p (p + 2)) (p + 3) x

/-- Outer loop of the red/blue exchange: `rows` rows from row `y` on, row `y`
starting at offset `y * length`. -/
def swapRows (bits : List Nat) (length width y : Nat) : Nat → List Nat
  | 0 => bits
  | rows + 1 => swapRows (swapRow bits (y * length) width) length width (y + 1) rows

/-- Lines 299-308 of `LoadDIBitmap` (and 400-409 of `SaveDIBitmap`):
`length = (biWidth * 3 + 3) & ~3` and the two nested loops; the loops run
`biHeight` and `biWidth` times when these are positive and not at all
otherwise. -/
def swapRedBlue (bits : List Nat) (biWidth biHeight : Int) : List Nat :=
  let t := wrapInt32 (wrapInt32 (biWidth * 3) + 3)
  let length := t - t % 4
  swapRows bits length.toNat biWidth.toNat 0 biHeight.toNat

/-- The constants `SaveDIBitmap` takes from `bitmap.h` (not among the
sources): the file type, the four compression codes that label the `switch`
and the two structure sizes. -/
structure BitmapH where
  BF_TYPE : Nat
  BI_RGB : Nat
  BI_RLE8 : Nat
  BI_RLE4 : Nat
  BI_BITFIELDS : Nat
  sizeofBITMAPFILEHEADER : Nat
  sizeofBITMAPINFOHEADER : Nat
  deriving DecidableEq, Repr

/-- The customary values of these constants (`"BM"`, compression codes 0 to 3,
a 14-byte file header and a 40-byte info header). -/
def customaryBitmapH : BitmapH :=
  ⟨0x4D42, 0, 1, 2, 3, 14, 40⟩

/-- Byte-wise transfer of `fwrite`: `n` bytes `mem i, mem (i + 1), ...` are
handed to the file one after the other until one write fails; the result is
the number of bytes written and the file afterwards. -/
def fwriteBytes (mem : Nat → Nat) : Nat → Nat → OutFile → Nat × OutFile
  | 0, _, fp => (0, fp)
  | n + 1, i, fp =>
      let r := putc (mem i : Int) fp
      if r.1 = EOF then (0, r.2)
      else
        let r2 := fwriteBytes mem n (i + 1) r.2
        (r2.1 + 1, r2.2)

/-- Library function `fwrite(ptr, size, nmemb, fp)` with the buffer at `ptr`
given by its bytes: the return value (number of complete items written) and
the file afterwards.  Reading past the end of the buffer is undefined in C;
the model reads 0 there. -/
def fwrite (buf : List Nat) (size nmemb : Nat) (fp : OutFile) : Nat × OutFile :=
  let r := fwriteBytes (fun i => buf.getD i 0) (size * nmemb) 0 fp
  (if size = 0 then 0 else r.1 / size, r.2)

/-- Lines 350-368 of `SaveDIBitmap`: `infosize` after the `switch` on
`biCompression`, with its fall-through from `BI_BITFIELDS` into `BI_RGB` and
from `BI_RGB` into `BI_RLE8`/`BI_RLE4`. -/
def saveInfosize (k : BitmapH) (h : BITMAPINFOHEADER) : Int :=
  let start := wrapInt32 (k.sizeofBITMAPINFOHEADER : Int)
  let palette (infosize : Int) : Int :=
    if h.biClrUsed = 0 then
      wrapInt32 (infosize + wrapInt32 (wrapInt32 (2 ^ h.biBitCount) * 4))
    else
      wrapInt32 (infosize + ((h.biClrUsed * 4 % 2 ^ 32 : Nat) : Int))
  if h.biCompression = k.BI_BITFIELDS then
    let infosize := wrapInt32 (start + 12)
    if h.biClrUsed = 0 then infosize
    else if 8 < h.biBitCount ∧ h.biClrUsed = 0 then infosize
    else palette infosize
  else if h.biCompression = k.BI_RGB then
    if 8 < h.biBitCount ∧ h.biClrUsed = 0 then start
    else palette start
  else if h.biCompression = k.BI_RLE8 ∨ h.biCompression = k.BI_RLE4 then
    palette start
  else start

/-- Lines 373-389 of `SaveDIBitmap`: the sixteen header writes, whose return
values the function does not look at. -/
def writeHeaders (k : BitmapH) (fp : OutFile) (h : BITMAPINFOHEADER)
    (size infosize : Int) : OutFile :=
  let fp := (write_word fp k.BF_TYPE).2
  let fp := (write_dword fp (size % 2 ^ 32).toNat).2
  let fp := (write_word fp 0).2
  let fp := (write_word fp 0).2
  let fp := (write_dword fp (wrapInt32 (18 + infosize) % 2 ^ 32).toNat).2
  let fp := (write_dword fp h.biSize).2
  let fp := (write_long fp h.biWidth).2
  let fp := (write_long fp h.biHeight).2
  let fp := (write_word fp h.biPlanes).2
  let fp := (write_word fp h.biBitCount).2
  let fp := (write_dword fp h.biCompression).2
  let fp := (write_dword fp h.biSizeImage).2
  let fp := (write_long fp h.biXPelsPerMeter).2
  let fp := (write_long fp h.biYPelsPerMeter).2
  let fp := (write_dword fp h.biClrUsed).2
  (write_dword fp h.biClrImportant).2

/-- What a call of `SaveDIBitmap` leaves behind: the value returned, the file
(`none` when it could not be opened) and the caller's pixel buffer `bits`. -/
structure SaveResult where
  ret : Int
  file : Option OutFile
  bits : List Nat
  deriving DecidableEq, Repr

/-- Function `SaveDIBitmap` (`bitmap.c` lines 322-421).  `file` is the result
of `fopen(filename, "wb")` (`none`: the file cannot be opened), `k` holds the
constants of `bitmap.h`, `sizeBits` is the width of `size_t`, and `bits` is
the caller's pixel buffer, which the red/blue exchange of lines 399-409
modifies in place. -/
def SaveDIBitmap (k : BitmapH) (sizeBits : Nat) (file : Option OutFile)
    (info : BITMAPINFO) (bits : List Nat) : SaveResult :=
  match file with
  | none => ⟨-1, none, bits⟩
  | some fp =>
    let bitsize := bitmapBitsize info.bmiHeader
    let infosize := saveInfosize k info.bmiHeader
    let size := wrapInt32 ((k.sizeofBITMAPFILEHEADER : Int) + infosize + bitsize)
    let fp1 := writeHeaders k fp info.bmiHeader size infosize
    let pal := fwrite info.bmiColors (infosize - 40).toNat 1 fp1
    if 40 < infosize ∧ pal.1 < 1 then ⟨-1, some pal.2, bits⟩
    else
      let fp2 := if 40 < infosize then pal.2 else fp1
      let swapped := swapRedBlue bits info.bmiHeader.biWidth info.bmiHeader.biHeight
      let count := (bitsize % 2 ^ sizeBits).toNat
      let px := fwrite swapped 1 count fp2
      if px.1 < count then ⟨-1, some px.2, swapped⟩
      else ⟨0, some px.2, swapped⟩

/-- A 1x1 24-bit uncompressed image: header with `biSizeImage = 0`, no
palette. -/
def onePixelInfo : BITMAPINFO :=
  ⟨⟨40, 1, 1, 1, 24, 0, 0, 0, 0, 0, 0⟩, []⟩

/-- A store of one byte at offset `i` of a block of `dst.length` bytes.  A
store outside the block (or through the null pointer, a block of no bytes) is
undefined in C: `none`. -/
def storeByte (dst : List Nat) (i v : Nat) : Option (List Nat) :=
  if i < dst.length then some (dst.set i v) else none

/-- Inner loop of `channelChange` (`bitmap.c` lines 525-543): `j` pixels are
still to be converted, `pSrc` and `pDst` are the offsets of the two running
pointers in the source buffer `data` and in the destination buffer.  The
`int` counter is compared with the `unsigned int` bound as an `unsigned int`,
so the loop makes `width` passes.  A load past the end of `data` and a store
past the end of the destination are undefined in C: from such a step on there
is no result (`none`). -/
def channelChangeRow (imageChannel : Int) (data : List Nat) :
    Nat → Nat → Nat → List Nat → Option (List Nat)
  | 0, _, _, dst => some dst
  | j + 1, pSrc, pDst, dst =>
      if imageChannel = 1 then
        (data[pSrc]?).bind fun p =>
        (storeByte dst pDst p).bind fun d1 =>
        (storeByte d1 (pDst + 1) p).bind fun d2 =>
        (storeByte d2 (pDst + 2) p).bind fun d3 =>
        (storeByte d3 (pDst + 3) 0).bind fun d4 =>
        channelChangeRow imageChannel data j (pSrc + 1) (pDst + 4) d4
      else if imageChannel = 3 then
        (data[pSrc]?).bind fun b =>
        (storeByte dst pDst b).bind fun d1 =>
        (data[pSrc + 1]?).bind fun g =>
        (storeByte d1 (pDst + 1) g).bind fun d2 =>
        (data[pSrc + 2]?).bind fun r =>
        (storeByte d2 (pDst + 2) r).bind fun d3 =>
        (storeByte d3 (pDst + 3) 0).bind fun d4 =>
        channelChangeRow imageChannel data j (pSrc + 3) (pDst + 4) d4
      else if imageChannel = 4 then
        (data[pSrc]?).bind fun b =>
        (storeByte dst pDst b).bind fun d1 =>
        (data[pSrc + 1]?).bind fun g =>
        (storeByte d1 (pDst + 1) g).bind fun d2 =>
        (data[pSrc + 2]?).bind fun r =>
        (storeByte d2 (pDst + 2) r).bind fun d3 =>
        (data[pSrc + 3]?).bind fun a =>
        (storeByte d3 (pDst + 3) a).bind fun d4 =>
        channelChangeRow imageChannel data j (pSrc + 4) (pDst + 4) d4
      else
        channelChangeRow imageChannel data j pSrc pDst dst

/-- Outer loop of `channelChange` (`bitmap.c` lines 521-544): `rows` rows are
still to be converted and `i` is the row index; the offsets
`i * width * imageChannel` and `i * width * 4` are computed in `unsigned int`
arithmetic.  There is no result (`none`) when the inner loop has none. -/
def channelChangeRows (imageChannel : Int) (data : List Nat) (width : Nat) :
    Nat → Nat → List Nat → Option (List Nat)
  | 0, _, dst => some dst
  | rows + 1, i, dst =>
      let pSrc := (i * width % 2 ^ 32) * (imageChannel % 2 ^ 32).toNat % 2 ^ 32
      let pDst := (i * width % 2 ^ 32) * 4 % 2 ^ 32
      (channelChangeRow imageChannel data width pSrc pDst dst).bind fun d1 =>
      channelChangeRows imageChannel data width rows (i + 1) d1

/-- Function `channelChange` (`bitmap.c` lines 518-546).  `width` and `height`
are `unsigned int` values, `allocOk` tells whether `calloc` succeeds; the
block asked for has `width * height * 4` bytes in `unsigned int` arithmetic
and is filled with zeros.  The result is the buffer returned, and `none` when
no buffer is returned: `calloc` returns `NULL` (the function then returns
`NULL`, or stores through it), or a step of the loops is undefined, which in
practice ends the process or corrupts the heap. -/
def channelChange (allocOk : Bool) (imageChannel : Int) (data : List Nat)
    (width height : Nat) : Option (List Nat) :=
  if allocOk = false then none
  else
    channelChangeRows imageChannel data width height 0
      (List.replicate (width * height * 4 % 2 ^ 32) 0)

/-- The value the k-th pixel of a converted image is said to have: the source
byte three times and 0 for one channel, the three source bytes and 0 for
three channels. -/
def expectedPixel (imageChannel : Int) (data : List Nat) (k : Nat) : List Nat :=
  if imageChannel = 1 then
    [data.getD k 0, data.getD k 0, data.getD k 0, 0]
  else
    [data.getD (3 * k) 0, data.getD (3 * k + 1) 0, data.getD (3 * k + 2) 0, 0]

/-- The k-th pixel of a four-channel buffer. -/
def pixelAt (buf : List Nat) (k : Nat) : List Nat :=
  (buf.drop (4 * k)).take 4

end Bitmap

/-! ## Theorems: `JniMethods.cpp`, publish/subscribe -/

namespace JniMethods

theorem exec_append (s : JniState) (es es' : List JniEvent) :
    exec s (es ++ es') = exec (exec s es) es' := by
  simp [exec, List.foldl_append]

theorem exec_cons (s : JniState) (e : JniEvent) (es : List JniEvent) :
    exec s (e :: es) = exec (step s e) es := rfl

theorem KaiSubscribe_config (s : JniState) (env clz : Nat) (addr : String)
    (port : Int) (topic viewId : String) (id : Int) :
    (KaiSubscribe s env clz addr port topic viewId id).g_pubSubParam
      = ⟨addr, port, topic, RecvCallback.RecvHook, env, clz, viewId, id⟩ := rfl

theorem KaiPublish_config (s : JniState) (topic payload : String) :
    (KaiPublish s topic payload).g_pubSubParam = s.g_pubSubParam := by
  unfold KaiPublish
  split <;> rfl

theorem runWorker_config (s : JniState) (tid : Nat) :
    (runWorker s tid).g_pubSubParam = s.g_pubSubParam := by
  unfold runWorker
  split
  · rfl
  · split <;> rfl

theorem step_config (s : JniState) (e : JniEvent) :
    (step s e).g_pubSubParam = (e.subscribeArgs).getD s.g_pubSubParam := by
  cases e with
  | KaiSubscribe env clz addr port topic viewId id => rfl
  | KaiPublish topic payload => exact KaiPublish_config s topic payload
  | run tid => exact runWorker_config s tid

theorem exec_config (es : List JniEvent) (s : JniState) :
    (exec s es).g_pubSubParam
      = (es.reverse.findSome? JniEvent.subscribeArgs).getD s.g_pubSubParam := by
  induction es generalizing s with
  | nil => rfl
  | cons e es ih =>
    rw [exec_cons, ih, step_config, List.reverse_cons, List.findSome?_append]
    cases h : es.reverse.findSome? JniEvent.subscribeArgs with
    | some g => simp
    | none => cases h2 : e.subscribeArgs <;> simp [List.findSome?, h2]

/-- Threads are only ever added at the end of the thread table. -/
theorem step_threads (s : JniState) (e : JniEvent) :
    ∃ extra, (step s e).threads = s.threads ++ extra := by
  cases e with
  | KaiSubscribe env clz addr port topic viewId id => exact ⟨_, rfl⟩
  | KaiPublish topic payload =>
    simp only [step, KaiPublish]
    split
    · exact ⟨[], by simp⟩
    · exact ⟨_, rfl⟩
  | run tid =>
    simp only [step, runWorker]
    split
    · exact ⟨[], by simp⟩
    · split
      · exact ⟨[], by simp⟩
      · exact ⟨[], by simp⟩

theorem exec_threads (es : List JniEvent) (s : JniState) :
    ∃ extra, (exec s es).threads = s.threads ++ extra := by
  induction es generalizing s with
  | nil => exact ⟨[], by simp [exec]⟩
  | cons e es ih =>
    obtain ⟨x1, h1⟩ := step_threads s e
    obtain ⟨x2, h2⟩ := ih (step s e)
    exact ⟨x1 ++ x2, by rw [exec_cons, h2, h1, List.append_assoc]⟩

/-- A thread is marked finished only by its own `run` event. -/
theorem step_finished (s : JniState) (e : JniEvent) (t : Nat)
    (h : t ∈ (step s e).finished) : t ∈ s.finished ∨ e = JniEvent.run t := by
  cases e with
  | KaiSubscribe env clz addr port topic viewId id => exact Or.inl h
  | KaiPublish topic payload =>
    simp only [step, KaiPublish] at h
    split at h <;> exact Or.inl h
  | run tid =>
    simp only [step, runWorker] at h
    split at h
    · exact Or.inl h
    · split at h
      · exact Or.inl h
      · simp only [List.mem_cons] at h
        rcases h with h | h
        · exact Or.inr (by rw [h])
        · exact Or.inl h

theorem exec_finished (es : List JniEvent) (s : JniState) (t : Nat)
    (h : t ∈ (exec s es).finished) : t ∈ s.finished ∨ JniEvent.run t ∈ es := by
  induction es generalizing s with
  | nil => exact Or.inl h
  | cons e es ih =>
    rw [exec_cons] at h
    rcases ih (step s e) h with h1 | h1
    · rcases step_finished s e t h1 with h2 | h2
      · exact Or.inl h2
      · exact Or.inr (by simp [h2])
    · exact Or.inr (List.mem_cons_of_mem _ h1)

theorem step_finishedBounded (s : JniState) (e : JniEvent)
    (h : FinishedBounded s) : FinishedBounded (step s e) := by
  intro t ht
  obtain ⟨extra, hx⟩ := step_threads s e
  rw [hx, List.length_append]
  cases e with
  | KaiSubscribe env clz addr port topic viewId id =>
    exact Nat.lt_add_right _ (h t ht)
  | KaiPublish topic payload =>
    simp only [step, KaiPublish] at ht
    split at ht <;> exact Nat.lt_add_right _ (h t ht)
  | run tid =>
    simp only [step, runWorker] at ht
    split at ht
    · exact Nat.lt_add_right _ (h t ht)
    · split at ht
      · exact Nat.lt_add_right _ (h t ht)
      · rename_i w hw
        simp only [List.mem_cons] at ht
        rcases ht with ht | ht
        · have : tid < s.threads.length := by
            by_contra hc
            rw [List.getElem?_eq_none (Nat.le_of_not_lt hc)] at hw
            cases hw
          rw [ht]
          exact Nat.lt_add_right _ this
        · exact Nat.lt_add_right _ (h t ht)

theorem exec_finishedBounded (es : List JniEvent) (s : JniState)
    (h : FinishedBounded s) : FinishedBounded (exec s es) := by
  induction es generalizing s with
  | nil => exact h
  | cons e es ih => exact ih (step s e) (step_finishedBounded s e h)

theorem initial_finishedBounded : FinishedBounded JniState.initial := by
  intro t ht
  cases ht

/-- A thread appended to the table of a reachable-style state stays pending,
with its body unchanged, until its own `run` event; running it then logs
exactly its body. -/
theorem runWorker_pending (s : JniState) (w : Worker) (es' : List JniEvent)
    (hb : FinishedBounded s) (s1 : JniState)
    (ht : s1.threads = s.threads ++ [w]) (hf : s1.finished = s.finished)
    (hrun : ∀ e ∈ es', e ≠ JniEvent.run s.threads.length) :
    (runWorker (exec s1 es') s.threads.length).calls
      = (exec s1 es').calls
        ++ (w.body (exec s1 es').g_pubSubParam).map
            (fun c => (s.threads.length, c)) := by
  have hnf : s.threads.length ∉ (exec s1 es').finished := by
    intro hmem
    rcases exec_finished es' s1 _ hmem with h1 | h1
    · rw [hf] at h1
      exact Nat.lt_irrefl _ (hb _ h1)
    · exact hrun _ h1 rfl
  obtain ⟨extra, hx⟩ := exec_threads es' s1
  have hget : (exec s1 es').threads[s.threads.length]? = some w := by
    rw [hx, ht, List.append_assoc]
    rw [List.getElem?_append_right (Nat.le_refl _)]
    simp
  unfold runWorker
  rw [if_neg hnf, hget]

/-- C6: after every history of `KaiSubscribe`, `KaiPublish` and thread runs,
`g_pubSubParam` equals the arguments of the most recent `KaiSubscribe` call
with `hook = RecvHook` (the initial empty/0 value when there was none); each
`KaiSubscribe` overwrites every field, and `KaiPublish` (like a thread run)
changes none. -/
theorem g_pubSubParam_is_mostRecentSubscribe :
    (∀ es : List JniEvent,
      (exec JniState.initial es).g_pubSubParam = mostRecentSubscribe es) ∧
    (∀ (s : JniState) (env clz : Nat) (addr : String) (port : Int)
        (topic viewId : String) (id : Int),
      (KaiSubscribe s env clz addr port topic viewId id).g_pubSubParam
        = ⟨addr, port, topic, RecvCallback.RecvHook, env, clz, viewId, id⟩) ∧
    (∀ (s : JniState) (topic payload : String),
      (KaiPublish s topic payload).g_pubSubParam = s.g_pubSubParam) ∧
    (∀ (s : JniState) (tid : Nat),
      (runWorker s tid).g_pubSubParam = s.g_pubSubParam) :=
  ⟨fun es => exec_config es JniState.initial, KaiSubscribe_config,
    KaiPublish_config, runWorker_config⟩

/-- C1: for every history, topic and payload, `KaiPublish` creates a thread
exactly when the configured address is non-empty and the configured port is
not 0, and makes no socket call itself.  When the guard fails the state is
unchanged (no thread, no socket call).  When it passes, exactly one thread is
added, and whenever that thread later runs it makes exactly two calls:
`Initialize` with the address and port of the most recent `KaiSubscribe` call
of the history, then `Publisher` with the topic and payload of the call. -/
theorem KaiPublish_publishes_iff_configured (es es' : List JniEvent)
    (topic payload : String) :
    let s := exec JniState.initial es
    let s1 := KaiPublish s topic payload
    let tid := s.threads.length
    let cfg := mostRecentSubscribe (es ++ JniEvent.KaiPublish topic payload :: es')
    ((s.g_pubSubParam.addr = "" ∨ s.g_pubSubParam.port = 0) → s1 = s) ∧
    ((s.g_pubSubParam.addr ≠ "" ∧ s.g_pubSubParam.port ≠ 0) →
      s1.threads = s.threads ++ [Worker.publish topic payload] ∧
      s1.calls = s.calls ∧
      ((∀ e ∈ es', e ≠ JniEvent.run tid) →
        (runWorker (exec s1 es') tid).calls
          = (exec s1 es').calls
            ++ [(tid, SocketCall.Initialize cfg.addr cfg.port),
                (tid, SocketCall.Publisher topic payload)])) := by
  intro s s1 tid cfg
  refine ⟨fun hg => ?_, fun hg => ?_⟩
  · show KaiPublish s topic payload = s
    unfold KaiPublish
    rw [if_pos hg]
  · have hguard : ¬ (s.g_pubSubParam.addr = "" ∨ s.g_pubSubParam.port = 0) := by
      rintro (h | h)
      · exact hg.1 h
      · exact hg.2 h
    have hs1 : s1 = { s with threads := s.threads ++ [Worker.publish topic payload] } := by
      show KaiPublish s topic payload = _
      unfold KaiPublish
      rw [if_neg hguard]
    refine ⟨by rw [hs1], by rw [hs1], fun hrun => ?_⟩
    have hb : FinishedBounded s :=
      exec_finishedBounded es _ initial_finishedBounded
    have hcfg : (exec s1 es').g_pubSubParam = cfg := by
      have hex : exec s1 es'
          = exec JniState.initial (es ++ JniEvent.KaiPublish topic payload :: es') := by
        rw [exec_append, exec_cons]
        rfl
      rw [hex]
      exact exec_config _ JniState.initial
    have := runWorker_pending s (Worker.publish topic payload) es' hb s1
      (by rw [hs1]) (by rw [hs1]) hrun
    rw [this, hcfg]
    rfl

/-- Witness for C1: after `KaiSubscribe("10.0.0.1", 9999, "t1", ...)`, a
publish of `("t1", "ping")` that runs after a second `KaiSubscribe` call. -/
theorem KaiPublish_publishes_iff_configured_witness :
    (runWorker
        (exec (KaiPublish
            (exec JniState.initial [JniEvent.KaiSubscribe 1 2 "10.0.0.1" 9999 "t1" "v" 7])
            "t1" "ping")
          [JniEvent.KaiSubscribe 1 2 "10.0.0.2" 8888 "t2" "v" 7]) 1).calls
      = [(1, SocketCall.Initialize "10.0.0.2" 8888),
         (1, SocketCall.Publisher "t1" "ping")] :=
  ((KaiPublish_publishes_iff_configured
      [JniEvent.KaiSubscribe 1 2 "10.0.0.1" 9999 "t1" "v" 7]
      [JniEvent.KaiSubscribe 1 2 "10.0.0.2" 8888 "t2" "v" 7] "t1" "ping").2
    ⟨by decide, by decide⟩).2.2 (by decide)

end JniMethods

/-! ## Theorems: `jniComm.cpp`, subscribe -/

namespace JniComm

/-- A non-empty Java string without NUL character is converted unchanged. -/
theorem Jstring2Cstring_text (jstr : String) (hne : jstr ≠ "")
    (hnul : Char.ofNat 0 ∉ jstr.data) : Jstring2Cstring jstr = some jstr := by
  unfold Jstring2Cstring
  have hd : jstr.data ≠ [] := by
    intro h
    apply hne
    cases jstr
    simp_all
  rw [if_neg hd]
  have ht : jstr.data.takeWhile (fun ch => decide (ch ≠ Char.ofNat 0)) = jstr.data := by
    rw [List.takeWhile_eq_self_iff]
    intro x hx
    have : x ≠ Char.ofNat 0 := fun h => hnul (h ▸ hx)
    simpa using this
  rw [ht]

/-- A call that returns has added exactly one thread and made no socket
call. -/
theorem KaiSubscribe_some (s s1 : CommState) (ip : String) (port : Int)
    (topic : String) (h : KaiSubscribe s ip port topic = some s1) :
    (∃ w, s1.threads = s.threads ++ [w]) ∧ s1.finished = s.finished ∧
      s1.calls = s.calls := by
  unfold KaiSubscribe at h
  split at h
  · cases h
  · split at h
    · cases h
    · cases h
      exact ⟨⟨_, rfl⟩, rfl, rfl⟩

theorem comm_exec_cons (s : CommState) (e : CommEvent) (es : List CommEvent)
    (s1 : CommState) (h : step s e = some s1) :
    exec s (e :: es) = exec s1 es := by
  simp only [exec, h]

theorem comm_exec_cons_some (s s2 : CommState) (e : CommEvent)
    (es : List CommEvent) (h : exec s (e :: es) = some s2) :
    ∃ s1, step s e = some s1 ∧ exec s1 es = some s2 := by
  simp only [exec] at h
  split at h
  · cases h
  · exact ⟨_, by assumption, h⟩

theorem comm_step_threads (s s1 : CommState) (e : CommEvent)
    (h : step s e = some s1) : ∃ extra, s1.threads = s.threads ++ extra := by
  cases e with
  | KaiSubscribe ip port topic =>
    obtain ⟨⟨w, hw⟩, _, _⟩ := KaiSubscribe_some s s1 ip port topic h
    exact ⟨[w], hw⟩
  | run tid =>
    simp only [step, Option.some.injEq] at h
    subst h
    unfold runWorker
    split
    · exact ⟨[], by simp⟩
    · split
      · exact ⟨[], by simp⟩
      · exact ⟨[], by simp⟩

theorem comm_exec_threads (es : List CommEvent) (s s2 : CommState)
    (h : exec s es = some s2) : ∃ extra, s2.threads = s.threads ++ extra := by
  induction es generalizing s with
  | nil =>
    simp only [exec, Option.some.injEq] at h
    subst h
    exact ⟨[], by simp⟩
  | cons e es ih =>
    obtain ⟨s1, h1, h2⟩ := comm_exec_cons_some s s2 e es h
    obtain ⟨x1, hx1⟩ := comm_step_threads s s1 e h1
    obtain ⟨x2, hx2⟩ := ih s1 h2
    exact ⟨x1 ++ x2, by rw [hx2, hx1, List.append_assoc]⟩

theorem comm_step_finished (s s1 : CommState) (e : CommEvent) (t : Nat)
    (hs : step s e = some s1) (h : t ∈ s1.finished) :
    t ∈ s.finished ∨ e = CommEvent.run t := by
  cases e with
  | KaiSubscribe ip port topic =>
    obtain ⟨_, hf, _⟩ := KaiSubscribe_some s s1 ip port topic hs
    exact Or.inl (hf ▸ h)
  | run tid =>
    simp only [step, Option.some.injEq] at hs
    subst hs
    simp only [runWorker] at h
    split at h
    · exact Or.inl h
    · split at h
      · exact Or.inl h
      · simp only [List.mem_cons] at h
        rcases h with h | h
        · exact Or.inr (by rw [h])
        · exact Or.inl h

theorem comm_exec_finished (es : List CommEvent) (s s2 : CommState) (t : Nat)
    (hs : exec s es = some s2) (h : t ∈ s2.finished) :
    t ∈ s.finished ∨ CommEvent.run t ∈ es := by
  induction es generalizing s with
  | nil =>
    simp only [exec, Option.some.injEq] at hs
    subst hs
    exact Or.inl h
  | cons e es ih =>
    obtain ⟨s1, h1, h2⟩ := comm_exec_cons_some s s2 e es hs
    rcases ih s1 h2 with h3 | h3
    · rcases comm_step_finished s s1 e t h1 h3 with h4 | h4
      · exact Or.inl h4
      · exact Or.inr (by simp [h4])
    · exact Or.inr (List.mem_cons_of_mem _ h3)

theorem comm_step_finishedBounded (s s1 : CommState) (e : CommEvent)
    (hs : step s e = some s1) (h : FinishedBounded s) : FinishedBounded s1 := by
  intro t ht
  obtain ⟨extra, hx⟩ := comm_step_threads s s1 e hs
  rw [hx, List.length_append]
  cases e with
  | KaiSubscribe ip port topic =>
    obtain ⟨_, hf, _⟩ := KaiSubscribe_some s s1 ip port topic hs
    exact Nat.lt_add_right _ (h t (hf ▸ ht))
  | run tid =>
    simp only [step, Option.some.injEq] at hs
    subst hs
    simp only [runWorker] at ht
    split at ht
    · exact Nat.lt_add_right _ (h t ht)
    · split at ht
      · exact Nat.lt_add_right _ (h t ht)
      · rename_i w hw
        simp only [List.mem_cons] at ht
        rcases ht with ht | ht
        · have : tid < s.threads.length := by
            by_contra hc
            rw [List.getElem?_eq_none (Nat.le_of_not_lt hc)] at hw
            cases hw
          rw [ht]
          exact Nat.lt_add_right _ this
        · exact Nat.lt_add_right _ (h t ht)

theorem comm_exec_finishedBounded (es : List CommEvent) (s s2 : CommState)
    (hs : exec s es = some s2) (h : FinishedBounded s) : FinishedBounded s2 := by
  induction es generalizing s with
  | nil =>
    simp only [exec, Option.some.injEq] at hs
    subst hs
    exact h
  | cons e es ih =>
    obtain ⟨s1, h1, h2⟩ := comm_exec_cons_some s s2 e es hs
    exact ih s1 h2 (comm_step_finishedBounded s s1 e h1 h)

theorem comm_initial_finishedBounded : FinishedBounded CommState.initial := by
  intro t ht
  cases ht

theorem comm_runWorker_pending (s : CommState) (w : Worker) (es' : List CommEvent)
    (hb : FinishedBounded s) (s1 s2 : CommState)
    (ht : s1.threads = s.threads ++ [w]) (hf : s1.finished = s.finished)
    (hex : exec s1 es' = some s2)
    (hrun : ∀ e ∈ es', e ≠ CommEvent.run s.threads.length) :
    (runWorker s2 s.threads.length).calls
      = s2.calls ++ w.body.map (fun c => (s.threads.length, c)) := by
  have hnf : s.threads.length ∉ s2.finished := by
    intro hmem
    rcases comm_exec_finished es' s1 s2 _ hex hmem with h1 | h1
    · rw [hf] at h1
      exact Nat.lt_irrefl _ (hb _ h1)
    · exact hrun _ h1 rfl
  obtain ⟨extra, hx⟩ := comm_exec_threads es' s1 s2 hex
  have hget : s2.threads[s.threads.length]? = some w := by
    rw [hx, ht, List.append_assoc]
    rw [List.getElem?_append_right (Nat.le_refl _)]
    simp
  unfold runWorker
  rw [if_neg hnf, hget]

end JniComm

/-- C2, counterexample, in `jniComm.cpp`: for an empty topic, and likewise for
an empty address, `Jstring2Cstring` builds a `std::string` from a null pointer
and the call never creates its thread; for the topic `t1`, NUL, `x` the thread
is created and calls `Subscriber` with the topic `t1`, not with the topic of
the call. -/
theorem jniComm_KaiSubscribe_empty_or_nul_text :
    JniComm.KaiSubscribe JniComm.CommState.initial "10.0.0.1" 9999 "" = none ∧
    JniComm.KaiSubscribe JniComm.CommState.initial "" 9999 "t1" = none ∧
    JniComm.topicWithNul ≠ "t1" ∧
    (JniComm.KaiSubscribe JniComm.CommState.initial "10.0.0.1" 9999
        JniComm.topicWithNul).map (fun c1 => (JniComm.runWorker c1 0).calls)
      = some [(0, JniComm.SocketCall.construct "10.0.0.1" 9999),
              (0, JniComm.SocketCall.Subscriber "t1"
                    JniMethods.RecvCallback.RecvHook)] := by
  decide

/-- C2 as amended.  In `JniMethods.cpp`, for every history and every address,
port and topic (as `Jstring2Cstring`, only declared in that file, delivers
them), `KaiSubscribe` adds exactly one thread to the thread table and makes no
socket call itself; whenever that thread later runs, whatever calls (further
`KaiSubscribe` calls included) happened in between, it makes exactly two
calls: `Initialize` with the address and port of its own call, then
`Subscriber` with the topic of its own call and `RecvHook`.  In `jniComm.cpp`
the same holds, with the constructor in place of `Initialize`, for every
address and topic that are not empty and hold no NUL character, in every
history the process survives. -/
theorem KaiSubscribe_worker_uses_own_arguments
    (es es' : List JniMethods.JniEvent) (cs cs' : List JniComm.CommEvent)
    (c c2 : JniComm.CommState)
    (env clz : Nat) (addr : String) (port : Int) (topic viewId : String)
    (id : Int) :
    let s := JniMethods.exec JniMethods.JniState.initial es
    let s1 := JniMethods.KaiSubscribe s env clz addr port topic viewId id
    let tid := s.threads.length
    let c1 : JniComm.CommState :=
      { c with threads := c.threads
          ++ [⟨addr, port, topic, JniMethods.RecvCallback.RecvHook⟩] }
    let cid := c.threads.length
    ((∃ w, s1.threads = s.threads ++ [w]) ∧ s1.calls = s.calls ∧
      ((∀ e ∈ es', e ≠ JniMethods.JniEvent.run tid) →
        (JniMethods.runWorker (JniMethods.exec s1 es') tid).calls
          = (JniMethods.exec s1 es').calls
            ++ [(tid, JniMethods.SocketCall.Initialize addr port),
                (tid, JniMethods.SocketCall.Subscriber topic
                        JniMethods.RecvCallback.RecvHook)])) ∧
    (JniComm.exec JniComm.CommState.initial cs = some c →
      addr ≠ "" → topic ≠ "" →
      Char.ofNat 0 ∉ addr.data → Char.ofNat 0 ∉ topic.data →
      JniComm.KaiSubscribe c addr port topic = some c1 ∧
      (∃ w, c1.threads = c.threads ++ [w]) ∧ c1.calls = c.calls ∧
      (JniComm.exec c1 cs' = some c2 →
        (∀ e ∈ cs', e ≠ JniComm.CommEvent.run cid) →
        (JniComm.runWorker c2 cid).calls
          = c2.calls
            ++ [(cid, JniComm.SocketCall.construct addr port),
                (cid, JniComm.SocketCall.Subscriber topic
                        JniMethods.RecvCallback.RecvHook)])) := by
  intro s s1 tid c1 cid
  refine ⟨⟨⟨_, rfl⟩, rfl, fun hrun => ?_⟩,
    fun hc ha ht hna hnt => ⟨?_, ⟨_, rfl⟩, rfl, fun hex hrun => ?_⟩⟩
  · have hb : JniMethods.FinishedBounded s :=
      JniMethods.exec_finishedBounded es _ JniMethods.initial_finishedBounded
    rw [JniMethods.runWorker_pending s _ es' hb s1 rfl rfl hrun]
    rfl
  · unfold JniComm.KaiSubscribe
    rw [JniComm.Jstring2Cstring_text addr ha hna,
      JniComm.Jstring2Cstring_text topic ht hnt]
  · have hb : JniComm.FinishedBounded c :=
      JniComm.comm_exec_finishedBounded cs _ c hc JniComm.comm_initial_finishedBounded
    rw [JniComm.comm_runWorker_pending c _ cs' hb c1 c2 rfl rfl hex hrun]
    rfl

/-- Witness for C2 as amended: in both files the thread of
`KaiSubscribe("10.0.0.1", 9999, "t1")` runs after a second
`KaiSubscribe("10.0.0.2", 8888, "t2")` call and still uses `10.0.0.1:9999`
and `t1`. -/
theorem KaiSubscribe_worker_uses_own_arguments_witness :
    (JniMethods.runWorker
        (JniMethods.exec
          (JniMethods.KaiSubscribe JniMethods.JniState.initial 1 2
            "10.0.0.1" 9999 "t1" "v" 7)
          [JniMethods.JniEvent.KaiSubscribe 1 2 "10.0.0.2" 8888 "t2" "v" 7]) 0).calls
      = [(0, JniMethods.SocketCall.Initialize "10.0.0.1" 9999),
         (0, JniMethods.SocketCall.Subscriber "t1"
               JniMethods.RecvCallback.RecvHook)] ∧
    (JniComm.runWorker
        ⟨[⟨"10.0.0.1", 9999, "t1", JniMethods.RecvCallback.RecvHook⟩,
          ⟨"10.0.0.2", 8888, "t2", JniMethods.RecvCallback.RecvHook⟩], [], []⟩ 0).calls
      = [(0, JniComm.SocketCall.construct "10.0.0.1" 9999),
         (0, JniComm.SocketCall.Subscriber "t1"
               JniMethods.RecvCallback.RecvHook)] :=
  ⟨(KaiSubscribe_worker_uses_own_arguments []
      [JniMethods.JniEvent.KaiSubscribe 1 2 "10.0.0.2" 8888 "t2" "v" 7] []
      [JniComm.CommEvent.KaiSubscribe "10.0.0.2" 8888 "t2"]
      JniComm.CommState.initial
      ⟨[⟨"10.0.0.1", 9999, "t1", JniMethods.RecvCallback.RecvHook⟩,
        ⟨"10.0.0.2", 8888, "t2", JniMethods.RecvCallback.RecvHook⟩], [], []⟩
      1 2 "10.0.0.1" 9999 "t1" "v" 7).1.2.2 (by decide),
   ((KaiSubscribe_worker_uses_own_arguments []
      [JniMethods.JniEvent.KaiSubscribe 1 2 "10.0.0.2" 8888 "t2" "v" 7] []
      [JniComm.CommEvent.KaiSubscribe "10.0.0.2" 8888 "t2"]
      JniComm.CommState.initial
      ⟨[⟨"10.0.0.1", 9999, "t1", JniMethods.RecvCallback.RecvHook⟩,
        ⟨"10.0.0.2", 8888, "t2", JniMethods.RecvCallback.RecvHook⟩], [], []⟩
      1 2 "10.0.0.1" 9999 "t1" "v" 7).2 rfl (by decide) (by decide) (by decide)
      (by decide)).2.2.2 (by decide) (by decide)⟩

/-! ## Theorems: the `startServer` receive loops -/

/-- The `while` loop of `jniComm.cpp` and the `do ... while` loop of
`JniMethods.cpp` make the same `Receiver` calls. -/
theorem receiveLoop_comm_eq (recv : Nat → Int) (fuel k : Nat) :
    JniComm.receiveLoop recv fuel k = JniMethods.receiveLoop recv fuel k := by
  induction fuel generalizing k with
  | zero => rfl
  | succ fuel ih =>
    simp only [JniComm.receiveLoop, JniMethods.receiveLoop]
    rw [ih]

theorem receiveLoop_nonzero (recv : Nat → Int) (fuel k : Nat) (h : recv k ≠ 0) :
    JniMethods.receiveLoop recv (fuel + 1) k
      = JniMethods.receiveLoop recv fuel (k + 1) := by
  simp [JniMethods.receiveLoop, h]

theorem receiveLoop_zero (recv : Nat → Int) (fuel k : Nat) (h : recv k = 0) :
    JniMethods.receiveLoop recv (fuel + 1) k = some (k + 1) := by
  simp [JniMethods.receiveLoop, h]

/-- From call number `k` on, with the first 0 at call number `n`: the loop
exits after call `n` when the fuel reaches that far. -/
theorem receiveLoop_exits (recv : Nat → Int) (n : Nat) (hn : recv n = 0) :
    ∀ (fuel k : Nat), k ≤ n → (∀ i, k ≤ i → i < n → recv i ≠ 0) →
      n - k < fuel → JniMethods.receiveLoop recv fuel k = some (n + 1) := by
  intro fuel
  induction fuel with
  | zero => intro k _ _ h; omega
  | succ fuel ih =>
    intro k hk hpre hfuel
    rcases Nat.eq_or_lt_of_le hk with heq | hlt
    · subst heq
      exact receiveLoop_zero recv fuel k hn
    · rw [receiveLoop_nonzero recv fuel k (hpre k (Nat.le_refl _) hlt)]
      exact ih (k + 1) hlt (fun i hi hin => hpre i (by omega) hin) (by omega)

/-- While every call up to the fuel bound returns a non-zero value the loop
is still running. -/
theorem receiveLoop_running (recv : Nat → Int) :
    ∀ (fuel k : Nat), (∀ i, k ≤ i → i < k + fuel → recv i ≠ 0) →
      JniMethods.receiveLoop recv fuel k = none := by
  intro fuel
  induction fuel with
  | zero => intro k _; rfl
  | succ fuel ih =>
    intro k h
    rw [receiveLoop_nonzero recv fuel k (h k (Nat.le_refl _) (by omega))]
    exact ih (k + 1) (fun i hi hlt => h i (by omega) (by omega))

/-- The loop exits only right after a call that returned 0. -/
theorem receiveLoop_exit_value (recv : Nat → Int) :
    ∀ (fuel k c : Nat), JniMethods.receiveLoop recv fuel k = some c →
      k < c ∧ recv (c - 1) = 0 := by
  intro fuel
  induction fuel with
  | zero => intro k c h; cases h
  | succ fuel ih =>
    intro k c h
    by_cases h0 : recv k = 0
    · rw [receiveLoop_zero recv fuel k h0] at h
      cases h
      exact ⟨Nat.lt_succ_self k, by simpa using h0⟩
    · rw [receiveLoop_nonzero recv fuel k h0] at h
      obtain ⟨h1, h2⟩ := ih (k + 1) c h
      exact ⟨by omega, h2⟩

/-- C3: for every sequence `recv` of values returned by successive `Receiver`
calls, both `startServer` loops behave alike.  If call number `n` is the first
to return 0, the loop exits after exactly `n + 1` calls (enough fuel gives that
result, and with fuel for at most `n` calls the loop is still running: it
stops at no earlier call).  If no call returns 0 the loop never exits. -/
theorem startServer_receives_until_first_zero (recv : Nat → Int) :
    (∀ n, recv n = 0 → (∀ i, i < n → recv i ≠ 0) → ∀ fuel,
      (n < fuel →
        JniMethods.receiveLoop recv fuel 0 = some (n + 1) ∧
        JniComm.receiveLoop recv fuel 0 = some (n + 1)) ∧
      (fuel ≤ n →
        JniMethods.receiveLoop recv fuel 0 = none ∧
        JniComm.receiveLoop recv fuel 0 = none)) ∧
    ((∀ i, recv i ≠ 0) → ∀ fuel,
      JniMethods.receiveLoop recv fuel 0 = none ∧
      JniComm.receiveLoop recv fuel 0 = none) := by
  refine ⟨fun n hn hpre fuel => ⟨fun hf => ?_, fun hf => ?_⟩, fun hall fuel => ?_⟩
  · rw [receiveLoop_comm_eq]
    have := receiveLoop_exits recv n hn fuel 0 (Nat.zero_le _)
      (fun i _ hi => hpre i hi) (by omega)
    exact ⟨this, this⟩
  · rw [receiveLoop_comm_eq]
    have := receiveLoop_running recv fuel 0 (fun i _ hi => hpre i (by omega))
    exact ⟨this, this⟩
  · rw [receiveLoop_comm_eq]
    have := receiveLoop_running recv fuel 0 (fun i _ _ => hall i)
    exact ⟨this, this⟩

/-- Witness for C3: `Receiver` returns 5, -1, 0, ...: three calls. -/
theorem startServer_receives_until_first_zero_witness :
    JniMethods.receiveLoop (fun k => if k = 0 then 5 else if k = 1 then -1 else 0) 4 0
        = some 3 ∧
      JniComm.receiveLoop (fun k => if k = 0 then 5 else if k = 1 then -1 else 0) 4 0
        = some 3 :=
  ((startServer_receives_until_first_zero
      (fun k => if k = 0 then 5 else if k = 1 then -1 else 0)).1 2 (by decide)
      (by intro i hi; interval_cases i <;> decide) 4).1 (by decide)

/-- C4, counterexample: `Receiver` returns -1 (a transport failure) at its
first call and 0 at its second.  Both loops call `Receiver` a second time and
exit after two calls, not after the failing one. -/
theorem receiveLoop_failure_does_not_stop :
    JniMethods.failOnceThenClosed 0 = -1 ∧
    JniMethods.receiveLoop JniMethods.failOnceThenClosed 1 0 = none ∧
    JniMethods.receiveLoop JniMethods.failOnceThenClosed 2 0 = some 2 ∧
    JniComm.receiveLoop JniMethods.failOnceThenClosed 1 0 = none ∧
    JniComm.receiveLoop JniMethods.failOnceThenClosed 2 0 = some 2 := by
  decide

/-- C4 as amended: when call number `k` of a `startServer` receive loop
returns a negative value, the loop does not exit there but goes on to call
number `k + 1`; whenever a loop exits, the last call made returned 0. -/
theorem receiveLoop_negative_continues (recv : Nat → Int) (fuel k : Nat)
    (hneg : recv k < 0) :
    JniMethods.receiveLoop recv (fuel + 1) k
        = JniMethods.receiveLoop recv fuel (k + 1) ∧
    JniComm.receiveLoop recv (fuel + 1) k
        = JniComm.receiveLoop recv fuel (k + 1) ∧
    (∀ c, JniMethods.receiveLoop recv (fuel + 1) k = some c ∨
          JniComm.receiveLoop recv (fuel + 1) k = some c →
        k + 1 < c ∧ recv (c - 1) = 0) := by
  have hne : recv k ≠ 0 := by omega
  refine ⟨receiveLoop_nonzero recv fuel k hne, ?_, ?_⟩
  · rw [receiveLoop_comm_eq, receiveLoop_comm_eq]
    exact receiveLoop_nonzero recv fuel k hne
  · intro c hc
    rw [receiveLoop_comm_eq, or_self, receiveLoop_nonzero recv fuel k hne] at hc
    exact receiveLoop_exit_value recv fuel (k + 1) c hc

/-- Witness for C4 as amended, at the failing first call of
`failOnceThenClosed`. -/
theorem receiveLoop_negative_continues_witness :
    JniMethods.receiveLoop JniMethods.failOnceThenClosed (1 + 1) 0
      = JniMethods.receiveLoop JniMethods.failOnceThenClosed 1 (0 + 1) :=
  (receiveLoop_negative_continues JniMethods.failOnceThenClosed 1 0
    (by decide)).1

/-! ## Theorems: `sendUdpData` and the `startServer` buffer length -/

theorem wrapInt32_of_fits (x : Int) (hlo : -(2 ^ 31) ≤ x) (hhi : x < 2 ^ 31) :
    wrapInt32 x = x := by
  unfold wrapInt32
  rw [Int.emod_eq_of_lt (by omega) (by omega)]
  omega

namespace JniMethods

theorem udpExec_cons (S : Nat) (s : UdpState) (e : UdpEvent)
    (es : List UdpEvent) :
    udpExec S s (e :: es) = udpExec S (udpStep S s e) es := rfl

/-- Only `sendUdpData` writes `g_msgLen`. -/
theorem udpExec_msgLen (S : Nat) (es : List UdpEvent) (s : UdpState)
    (h : ∀ e ∈ es, e.isSend = false) :
    (udpExec S s es).g_msgLen = s.g_msgLen := by
  induction es generalizing s with
  | nil => rfl
  | cons e es ih =>
    rw [udpExec_cons, ih _ (fun x hx => h x (List.mem_cons_of_mem _ hx))]
    have he := h e (List.mem_cons_self _ _)
    cases e with
    | sendUdpData text len => simp [UdpEvent.isSend] at he
    | startServer => rfl
    | serverStart =>
      simp only [udpStep, serverStart]
      split <;> rfl

/-- Byte count handed to `Sender` for a non-negative `len` below `INT_MAX`. -/
theorem sender_count_of_nonneg (len : Int) (h0 : 0 ≤ len) (h1 : len + 1 < 2 ^ 31) :
    ((len % 2 ^ 32).toNat + 1) % 2 ^ 32 = (len + 1).toNat := by
  rw [Int.emod_eq_of_lt h0 (by omega)]
  have h2 : len.toNat + 1 < 2 ^ 32 := by omega
  rw [Nat.mod_eq_of_lt h2]
  omega

/-- C5, counterexample, with `sizeof(NetProtocol) = 36` (for another size the
same history with `len = sizeof(NetProtocol)` does it): `startServer` is
called and its thread starts while `g_msgLen` is still 0, then
`sendUdpData(text, 36)` is called.  The thread passes buffer length 36 to
`Receiver`, and `Sender` gets 37 bytes. -/
theorem buffer_smaller_than_later_datagram :
    (udpExec 36 UdpState.initial
        [UdpEvent.startServer, UdpEvent.serverStart,
         UdpEvent.sendUdpData "0123456789abcdefghijklmnopqrstuvwxyz" 36]).receiverLens
      = [36] ∧
    (udpExec 36 UdpState.initial
        [UdpEvent.startServer, UdpEvent.serverStart,
         UdpEvent.sendUdpData "0123456789abcdefghijklmnopqrstuvwxyz" 36]).senderCalls
      = [("0123456789abcdefghijklmnopqrstuvwxyz", 37)] ∧
    ¬ BufferCoversSenders
      (udpExec 36 UdpState.initial
        [UdpEvent.startServer, UdpEvent.serverStart,
         UdpEvent.sendUdpData "0123456789abcdefghijklmnopqrstuvwxyz" 36]) := by
  refine ⟨by decide, by decide, ?_⟩
  intro h
  have := h 36 (by decide) ("0123456789abcdefghijklmnopqrstuvwxyz", 37) (by decide)
  revert this
  decide

/-- The same history defeats the buffer for every structure size. -/
theorem later_datagram_exceeds_buffer_any_size (S : Nat)
    (hS : (S : Int) + 1 < 2 ^ 31) (text : String) :
    ¬ BufferCoversSenders
      (udpExec S UdpState.initial
        [UdpEvent.startServer, UdpEvent.serverStart,
         UdpEvent.sendUdpData text S]) := by
  intro h
  have hw : wrapInt32 (S : Int) = S :=
    wrapInt32_of_fits (S : Int) (by omega) (by omega)
  have hb : (S : Int) ∈ (udpExec S UdpState.initial
        [UdpEvent.startServer, UdpEvent.serverStart,
         UdpEvent.sendUdpData text S]).receiverLens := by
    simp [udpExec, udpStep, startServer, serverStart, sendUdpData,
      UdpState.initial, hw]
  have hc : (text, (S + 1 : Nat)) ∈ (udpExec S UdpState.initial
        [UdpEvent.startServer, UdpEvent.serverStart,
         UdpEvent.sendUdpData text S]).senderCalls := by
    have := sender_count_of_nonneg (S : Int) (by omega) hS
    simp only [udpExec, udpStep, startServer, serverStart, sendUdpData,
      UdpState.initial, List.foldl, List.nil_append, List.mem_singleton]
    rw [this]
    congr 1
  have := h _ hb _ hc
  simp at this

/-- C5 as amended: the buffer length a `startServer` thread passes to
`Receiver` is `g_msgLen + sizeof(NetProtocol)` as read when the thread starts.
If the most recent `sendUdpData` call before that moment was
`sendUdpData(text, len)` with `0 ≤ len`, `sizeof(NetProtocol) ≥ 1` and
`len + sizeof(NetProtocol) ≤ INT_MAX`, that call handed `len + 1` bytes to
`Sender`, the buffer length is `len + sizeof(NetProtocol)`, and so it is not
smaller than the byte count of that call. -/
theorem buffer_covers_latest_datagram (S : Nat) (es es' : List UdpEvent)
    (text : String) (len : Int)
    (hS : 1 ≤ S) (hlen : 0 ≤ len) (hfit : len + S < 2 ^ 31)
    (hes' : ∀ e ∈ es', e.isSend = false) :
    let s0 := udpExec S UdpState.initial es
    let s1 := sendUdpData s0 text len
    let s2 := udpExec S s1 es'
    s1.senderCalls = s0.senderCalls ++ [(text, (len + 1).toNat)] ∧
    (0 < s2.pendingServers →
      (serverStart S s2).receiverLens = s2.receiverLens ++ [len + S]) ∧
    (((len + 1).toNat : Nat) : Int) ≤ len + S := by
  intro s0 s1 s2
  have hS1 : (1 : Int) ≤ (S : Int) := by exact_mod_cast hS
  refine ⟨?_, fun hp => ?_, by omega⟩
  · have hc := sender_count_of_nonneg len hlen (by omega)
    show (sendUdpData s0 text len).senderCalls = _
    unfold sendUdpData
    simp only [hc]
  · have hg : s2.g_msgLen = len := udpExec_msgLen S es' s1 hes'
    unfold serverStart
    cases hq : s2.pendingServers with
    | zero => omega
    | succ n =>
      simp only
      rw [hg, wrapInt32_of_fits (S : Int) (by omega) (by omega),
        wrapInt32_of_fits (len + S) (by omega) hfit]

/-- Witness for C5 as amended: `sendUdpData("ping", 4)`, then `startServer`
and the start of its thread, with `sizeof(NetProtocol) = 36`: 5 bytes sent,
buffer length 40. -/
theorem buffer_covers_latest_datagram_witness :
    (serverStart 36
        (udpExec 36 (sendUdpData (udpExec 36 UdpState.initial []) "ping" 4)
          [UdpEvent.startServer])).receiverLens
      = (udpExec 36 (sendUdpData (udpExec 36 UdpState.initial []) "ping" 4)
          [UdpEvent.startServer]).receiverLens ++ [(4 : Int) + ((36 : Nat) : Int)] :=
  (buffer_covers_latest_datagram 36 [] [UdpEvent.startServer] "ping" 4
    (by decide) (by decide) (by decide) (by decide)).2.1 (by decide)

end JniMethods

/-! ## Theorems: the wire protocol -/

namespace WireProtocol

theorem padField_length (cap : Nat) (text : List (Fin 256))
    (h : text.length ≤ cap) : (padField cap text).length = cap := by
  simp [padField]
  omega

/-- Reading back a padded C text gives the text, whatever follows the
field. -/
theorem fieldText_append_zeros (n : Nat) (text : List (Fin 256))
    (ht : IsText text) : fieldText (text ++ List.replicate n 0) = text := by
  unfold fieldText
  induction text with
  | nil =>
    rw [List.nil_append, List.takeWhile_replicate]
    simp
  | cons b bs ih =>
    have hb : b ≠ 0 := ht b (List.mem_cons_self _ _)
    have hbs : IsText bs := fun x hx => ht x (List.mem_cons_of_mem _ hx)
    rw [List.cons_append, List.takeWhile_cons_of_pos (by simpa using hb), ih hbs]

theorem fieldText_padField (cap : Nat) (text : List (Fin 256))
    (ht : IsText text) : fieldText (padField cap text) = text :=
  fieldText_append_zeros _ text ht

theorem take_append_length {α : Type} (n : Nat) (l1 l2 : List α)
    (h : l1.length = n) : (l1 ++ l2).take n = l1 := by
  subst h
  exact List.take_left l1 l2

theorem drop_append_length {α : Type} (n : Nat) (l1 l2 : List α)
    (h : l1.length = n) : (l1 ++ l2).drop n = l2 := by
  subst h
  exact List.drop_left l1 l2

/-- Decoding a frame followed by arbitrary extra bytes. -/
theorem decode_frame (c : Capacities) (m : Message) (extra : List (Fin 256))
    (htopic : m.topic.length ≤ c.TOPIC_CAP)
    (hstat : m.stat.length ≤ c.STATUS_CAP)
    (hbody : m.body.length ≤ c.BODY_CAP)
    (ht1 : IsText m.topic) (ht2 : IsText m.stat) (ht3 : IsText m.body) :
    decode c (padField c.TOPIC_CAP m.topic ++ ([m.etag]
        ++ (padField c.STATUS_CAP m.stat ++ padField c.BODY_CAP m.body)) ++ extra)
      = Except.ok m := by
  have l1 := padField_length _ _ htopic
  have l2 := padField_length _ _ hstat
  have l3 := padField_length _ _ hbody
  unfold decode
  rw [if_neg (by simp [frameSize, l1, l2, l3]; omega)]
  simp only [List.append_assoc]
  rw [take_append_length _ _ _ l1, drop_append_length _ _ _ l1]
  simp only [List.singleton_append, List.headD_cons, List.drop_succ_cons,
    List.drop_zero]
  rw [take_append_length _ _ _ l2, drop_append_length _ _ _ l2,
    take_append_length _ _ _ l3]
  rw [fieldText_padField _ _ ht1, fieldText_padField _ _ ht2,
    fieldText_padField _ _ ht3]

/-- C7: for every message whose three text fields fit their capacities (and
are texts, i.e. hold no NUL byte), encoding succeeds with a datagram of the
constant size `S`, and decoding that datagram, also when extra bytes follow
it, yields the same `topic`, `etag`, `stat` and `body`. -/
theorem decode_encode_roundtrip (c : Capacities) (m : Message)
    (htopic : m.topic.length ≤ c.TOPIC_CAP)
    (hstat : m.stat.length ≤ c.STATUS_CAP)
    (hbody : m.body.length ≤ c.BODY_CAP)
    (ht1 : IsText m.topic) (ht2 : IsText m.stat) (ht3 : IsText m.body) :
    ∃ bytes, encode c m.topic m.etag m.stat m.body = Except.ok bytes ∧
      bytes.length = frameSize c ∧
      decode c bytes = Except.ok m ∧
      ∀ extra, decode c (bytes ++ extra) = Except.ok m := by
  refine ⟨padField c.TOPIC_CAP m.topic ++ ([m.etag]
      ++ (padField c.STATUS_CAP m.stat ++ padField c.BODY_CAP m.body)),
    ?_, ?_, ?_, ?_⟩
  · unfold encode
    rw [if_neg (by omega)]
  · simp [frameSize, padField_length _ _ htopic, padField_length _ _ hstat,
      padField_length _ _ hbody]
    omega
  · have := decode_frame c m [] htopic hstat hbody ht1 ht2 ht3
    rwa [List.append_nil] at this
  · intro extra
    exact decode_frame c m extra htopic hstat hbody ht1 ht2 ht3

/-- Witness for C7: topic "t1", role 1, status "ok", payload "ping" with
capacities 4, 2 and 8. -/
theorem decode_encode_roundtrip_witness :
    ∃ bytes, encode ⟨4, 2, 8⟩ [116, 49] 1 [111, 107] [112, 105, 110, 103]
        = Except.ok bytes ∧
      bytes.length = frameSize ⟨4, 2, 8⟩ ∧
      decode ⟨4, 2, 8⟩ bytes
        = Except.ok ⟨[116, 49], 1, [111, 107], [112, 105, 110, 103]⟩ ∧
      ∀ extra, decode ⟨4, 2, 8⟩ (bytes ++ extra)
        = Except.ok ⟨[116, 49], 1, [111, 107], [112, 105, 110, 103]⟩ :=
  decode_encode_roundtrip ⟨4, 2, 8⟩
    ⟨[116, 49], 1, [111, 107], [112, 105, 110, 103]⟩
    (by decide) (by decide) (by decide)
    (by simp [IsText]) (by simp [IsText]) (by simp [IsText])

end WireProtocol

/-! ## Theorems: `files/bitmap.c`, the little-endian readers and writers -/

namespace Bitmap

theorem shiftLeft8_or (x b : Nat) (h : b < 256) :
    (x <<< 8) ||| b = x * 256 + b := by
  rw [Nat.shiftLeft_eq, Nat.mul_comm, ← Nat.mul_add_lt_is_or (by simpa using h)]

theorem toUChar_lt (c : Int) : toUChar c < 256 := by
  unfold toUChar
  omega

theorem toUChar_natCast (n : Nat) : toUChar (n : Int) = n % 256 := by
  unfold toUChar
  omega

theorem getc_cons (b : Nat) (rest : InFile) :
    getc (b :: rest) = (((b % 256 : Nat) : Int), rest) := rfl

/-- The bit pattern assembled by the readers from four bytes. -/
theorem pattern32 (b0 b1 b2 b3 : Nat) (h0 : b0 < 256) (h1 : b1 < 256)
    (h2 : b2 < 256) :
    (((((b3 <<< 8) ||| b2) <<< 8) ||| b1) <<< 8) ||| b0
      = ((b3 * 256 + b2) * 256 + b1) * 256 + b0 := by
  rw [shiftLeft8_or _ b2 h2, shiftLeft8_or _ b1 h1, shiftLeft8_or _ b0 h0]

theorem wrapInt32_mod (p : Nat) (h : p < 2 ^ 32) :
    (wrapInt32 (p : Int) % 2 ^ 32).toNat = p := by
  unfold wrapInt32
  omega

theorem read_word_cons (a b : Nat) (rest : InFile) :
    read_word (a :: b :: rest) = (b % 256 * 256 + a % 256, rest) := by
  simp only [read_word, getc_cons, toUChar_natCast]
  rw [shiftLeft8_or _ _ (by omega)]
  congr 1
  omega

theorem read_dword_cons (a b c d : Nat) (rest : InFile) :
    read_dword (a :: b :: c :: d :: rest)
      = (((d % 256 * 256 + c % 256) * 256 + b % 256) * 256 + a % 256, rest) := by
  unfold read_dword
  simp only [getc_cons, toUChar_natCast, Nat.mod_mod]
  rw [pattern32 _ _ _ _ (Nat.mod_lt _ (by norm_num)) (Nat.mod_lt _ (by norm_num))
    (Nat.mod_lt _ (by norm_num))]
  rw [wrapInt32_mod _ (by omega)]

theorem read_long_cons (a b c d : Nat) (rest : InFile) :
    read_long (a :: b :: c :: d :: rest)
      = (wrapInt32 ((((d % 256 * 256 + c % 256) * 256 + b % 256) * 256
          + a % 256 : Nat) : Int), rest) := by
  unfold read_long
  simp only [getc_cons, toUChar_natCast, Nat.mod_mod]
  rw [pattern32 _ _ _ _ (Nat.mod_lt _ (by norm_num)) (Nat.mod_lt _ (by norm_num))
    (Nat.mod_lt _ (by norm_num))]

/-- A byte write that does not fail. -/
theorem putc_ok (c : Int) (fp : OutFile) (h : ∀ b ∈ fp.faults, b = false) :
    (putc c fp).1 = (toUChar c : Int) ∧
    (putc c fp).2.bytes = fp.bytes ++ [toUChar c] ∧
    (∀ b ∈ (putc c fp).2.faults, b = false) := by
  unfold putc
  cases hf : fp.faults with
  | nil => exact ⟨rfl, rfl, by simp [hf]⟩
  | cons x xs =>
    have hx : x = false := h x (by simp [hf])
    subst hx
    refine ⟨rfl, rfl, ?_⟩
    intro b hb
    exact h b (by rw [hf]; exact List.mem_cons_of_mem _ hb)

theorem write_word_ok (fp : OutFile) (w : Nat)
    (h : ∀ b ∈ fp.faults, b = false) :
    (write_word fp w).2.bytes = fp.bytes ++ littleEndian16 w := by
  obtain ⟨_, b0, f0⟩ := putc_ok (w : Int) fp h
  obtain ⟨_, b1, _⟩ := putc_ok ((w >>> 8 : Nat) : Int) _ f0
  unfold write_word
  rw [b1, b0, toUChar_natCast, toUChar_natCast, Nat.shiftRight_eq_div_pow,
    List.append_assoc]
  rfl

theorem write_dword_ok (fp : OutFile) (dw : Nat)
    (h : ∀ b ∈ fp.faults, b = false) :
    (write_dword fp dw).2.bytes = fp.bytes ++ littleEndian32 dw := by
  obtain ⟨_, b0, f0⟩ := putc_ok (dw : Int) fp h
  obtain ⟨_, b1, f1⟩ := putc_ok ((dw >>> 8 : Nat) : Int) _ f0
  obtain ⟨_, b2, f2⟩ := putc_ok ((dw >>> 16 : Nat) : Int) _ f1
  obtain ⟨_, b3, _⟩ := putc_ok ((dw >>> 24 : Nat) : Int) _ f2
  unfold write_dword
  rw [b3, b2, b1, b0]
  simp only [toUChar_natCast, Nat.shiftRight_eq_div_pow, List.append_assoc]
  rfl

/-- Low byte of an arithmetic right shift, in terms of the 32-bit pattern. -/
theorem toUChar_shiftRight8 (l : Int) (h1 : -(2 ^ 31) ≤ l) (h2 : l < 2 ^ 31) :
    toUChar (l >>> (8 : Nat)) = (l % 2 ^ 32).toNat / 2 ^ 8 % 256 := by
  rw [Int.shiftRight_eq_div_pow]
  unfold toUChar
  norm_num
  omega

theorem toUChar_shiftRight16 (l : Int) (h1 : -(2 ^ 31) ≤ l) (h2 : l < 2 ^ 31) :
    toUChar (l >>> (16 : Nat)) = (l % 2 ^ 32).toNat / 2 ^ 16 % 256 := by
  rw [Int.shiftRight_eq_div_pow]
  unfold toUChar
  norm_num
  omega

theorem toUChar_shiftRight24 (l : Int) (h1 : -(2 ^ 31) ≤ l) (h2 : l < 2 ^ 31) :
    toUChar (l >>> (24 : Nat)) = (l % 2 ^ 32).toNat / 2 ^ 24 % 256 := by
  rw [Int.shiftRight_eq_div_pow]
  unfold toUChar
  norm_num
  omega

theorem write_long_ok (fp : OutFile) (l : Int)
    (h : ∀ b ∈ fp.faults, b = false)
    (h1 : -(2 ^ 31) ≤ l) (h2 : l < 2 ^ 31) :
    (write_long fp l).2.bytes = fp.bytes ++ littleEndian32 (l % 2 ^ 32).toNat := by
  obtain ⟨_, b0, f0⟩ := putc_ok l fp h
  obtain ⟨_, b1, f1⟩ := putc_ok (l >>> (8 : Nat)) _ f0
  obtain ⟨_, b2, f2⟩ := putc_ok (l >>> (16 : Nat)) _ f1
  obtain ⟨_, b3, _⟩ := putc_ok (l >>> (24 : Nat)) _ f2
  have e0 : toUChar l = (l % 2 ^ 32).toNat % 256 := by
    unfold toUChar
    omega
  unfold write_long
  rw [b3, b2, b1, b0, e0, toUChar_shiftRight8 l h1 h2,
    toUChar_shiftRight16 l h1 h2, toUChar_shiftRight24 l h1 h2]
  simp only [List.append_assoc]
  rfl

/-- C9: on a file whose byte writes succeed, `write_word`, `write_dword` and
`write_long` append exactly the 2 or 4 bytes of the value, least significant
byte first (for `write_long` the bytes of the two's complement pattern), and
`read_word`, `read_dword`, `read_long` applied to those bytes return the value
written and leave the rest of the file. -/
theorem little_endian_codecs_inverse (fp : OutFile) (rest : InFile)
    (w d : Nat) (l : Int) (hfp : ∀ b ∈ fp.faults, b = false)
    (hw : w < 2 ^ 16) (hd : d < 2 ^ 32)
    (hl1 : -(2 ^ 31) ≤ l) (hl2 : l < 2 ^ 31) :
    ((write_word fp w).2.bytes = fp.bytes ++ littleEndian16 w ∧
      read_word (littleEndian16 w ++ rest) = (w, rest)) ∧
    ((write_dword fp d).2.bytes = fp.bytes ++ littleEndian32 d ∧
      read_dword (littleEndian32 d ++ rest) = (d, rest)) ∧
    ((write_long fp l).2.bytes = fp.bytes ++ littleEndian32 (l % 2 ^ 32).toNat ∧
      read_long (littleEndian32 (l % 2 ^ 32).toNat ++ rest) = (l, rest)) := by
  refine ⟨⟨write_word_ok fp w hfp, ?_⟩, ⟨write_dword_ok fp d hfp, ?_⟩,
    ⟨write_long_ok fp l hfp hl1 hl2, ?_⟩⟩
  · simp only [littleEndian16, List.cons_append, List.nil_append, read_word_cons]
    refine Prod.ext ?_ rfl
    show w / 2 ^ 8 % 256 % 256 * 256 + w % 256 % 256 = w
    omega
  · simp only [littleEndian32, List.cons_append, List.nil_append, read_dword_cons]
    refine Prod.ext ?_ rfl
    show ((d / 2 ^ 24 % 256 % 256 * 256 + d / 2 ^ 16 % 256 % 256) * 256
      + d / 2 ^ 8 % 256 % 256) * 256 + d % 256 % 256 = d
    omega
  · simp only [littleEndian32, List.cons_append, List.nil_append, read_long_cons]
    refine Prod.ext ?_ rfl
    show wrapInt32 _ = l
    unfold wrapInt32
    omega

/-- Witness for C9: the word `0x4D42`, the double word `0x12345678` and the
long `-2`. -/
theorem little_endian_codecs_inverse_witness :
    ((write_word ⟨[], []⟩ 0x4D42).2.bytes = [] ++ littleEndian16 0x4D42 ∧
      read_word (littleEndian16 0x4D42 ++ [7]) = (0x4D42, [7])) ∧
    ((write_dword ⟨[], []⟩ 0x12345678).2.bytes = [] ++ littleEndian32 0x12345678 ∧
      read_dword (littleEndian32 0x12345678 ++ [7]) = (0x12345678, [7])) ∧
    ((write_long ⟨[], []⟩ (-2)).2.bytes
        = [] ++ littleEndian32 ((-2 : Int) % 2 ^ 32).toNat ∧
      read_long (littleEndian32 ((-2 : Int) % 2 ^ 32).toNat ++ [7]) = (-2, [7])) :=
  little_endian_codecs_inverse ⟨[], []⟩ [7] 0x4D42 0x12345678 (-2)
    (by simp) (by norm_num) (by norm_num) (by norm_num) (by norm_num)

/-! ## Theorems: `files/bitmap.c`, `LoadDIBitmap` -/

theorem fread_bytes_rest (n : Nat) (fp : InFile) :
    (fread 1 n fp).rest = fp.drop n := by
  simp [fread]

/-- Every `putc` call uses up one entry of the fault script. -/
theorem putc_faults (c : Int) (fp : OutFile) :
    (putc c fp).2.faults = fp.faults.drop 1 := by
  unfold putc
  cases hf : fp.faults with
  | nil => simp [hf]
  | cons x xs => cases x <;> rfl

theorem write_word_faults (fp : OutFile) (w : Nat) :
    (write_word fp w).2.faults = fp.faults.drop 2 := by
  simp only [write_word, putc_faults, List.drop_drop]

theorem write_dword_faults (fp : OutFile) (dw : Nat) :
    (write_dword fp dw).2.faults = fp.faults.drop 4 := by
  simp only [write_dword, putc_faults, List.drop_drop]

theorem write_long_faults (fp : OutFile) (l : Int) :
    (write_long fp l).2.faults = fp.faults.drop 4 := by
  simp only [write_long, putc_faults, List.drop_drop]

/-- The header writes of `SaveDIBitmap` are 54 byte writes. -/
theorem writeHeaders_faults (k : BitmapH) (fp : OutFile) (h : BITMAPINFOHEADER)
    (size infosize : Int) :
    (writeHeaders k fp h size infosize).faults = fp.faults.drop 54 := by
  simp only [writeHeaders, write_word_faults, write_dword_faults, write_long_faults,
    List.drop_drop]

/-- On a file without pending faults `fwrite` transfers every byte. -/
theorem fwriteBytes_ok (mem : Nat → Nat) :
    ∀ (n i : Nat) (fp : OutFile), fp.faults = [] →
      (fwriteBytes mem n i fp).1 = n ∧ (fwriteBytes mem n i fp).2.faults = [] := by
  intro n
  induction n with
  | zero => intro i fp h; exact ⟨rfl, h⟩
  | succ n ih =>
    intro i fp h
    have hp : (putc (mem i : Int) fp).1 ≠ EOF := by
      have := (putc_ok (mem i : Int) fp (by simp [h])).1
      rw [this]
      unfold EOF toUChar
      omega
    have hf : (putc (mem i : Int) fp).2.faults = [] := by
      rw [putc_faults, h]
      rfl
    obtain ⟨h1, h2⟩ := ih (i + 1) _ hf
    unfold fwriteBytes
    simp only [if_neg hp]
    exact ⟨by rw [h1], h2⟩

theorem fwrite_ok (buf : List Nat) (size nmemb : Nat) (fp : OutFile)
    (h : fp.faults = []) :
    (fwrite buf size nmemb fp).1 = (if size = 0 then 0 else nmemb) ∧
    (fwrite buf size nmemb fp).2.faults = [] := by
  obtain ⟨h1, h2⟩ := fwriteBytes_ok (fun i => buf.getD i 0) (size * nmemb) 0 fp h
  unfold fwrite
  simp only [h1, h2]
  refine ⟨?_, trivial⟩
  split
  · rfl
  · rw [Nat.mul_div_cancel_left _ (by omega)]

/-- Whatever happens to the 54 header byte writes, `SaveDIBitmap` returns 0
when the later writes succeed. -/
theorem SaveDIBitmap_ignores_header_faults (k : BitmapH) (sizeBits : Nat)
    (fp : OutFile) (info : BITMAPINFO) (bits : List Nat)
    (h : fp.faults.length ≤ 54) :
    (SaveDIBitmap k sizeBits (some fp) info bits).ret = 0 := by
  have hf1 : (writeHeaders k fp info.bmiHeader
      (wrapInt32 ((k.sizeofBITMAPFILEHEADER : Int) + saveInfosize k info.bmiHeader
        + bitmapBitsize info.bmiHeader)) (saveInfosize k info.bmiHeader)).faults = [] := by
    rw [writeHeaders_faults]
    exact List.drop_eq_nil_of_le h
  unfold SaveDIBitmap
  simp only
  obtain ⟨p1, p2⟩ := fwrite_ok info.bmiColors (saveInfosize k info.bmiHeader - 40).toNat 1 _ hf1
  rw [if_neg (by
    rintro ⟨h40, hlt⟩
    rw [p1, if_neg (by omega)] at hlt
    omega)]
  have hf2 : (if 40 < saveInfosize k info.bmiHeader then
      (fwrite info.bmiColors (saveInfosize k info.bmiHeader - 40).toNat 1
        (writeHeaders k fp info.bmiHeader
          (wrapInt32 ((k.sizeofBITMAPFILEHEADER : Int) + saveInfosize k info.bmiHeader
            + bitmapBitsize info.bmiHeader)) (saveInfosize k info.bmiHeader))).2
      else writeHeaders k fp info.bmiHeader
          (wrapInt32 ((k.sizeofBITMAPFILEHEADER : Int) + saveInfosize k info.bmiHeader
            + bitmapBitsize info.bmiHeader)) (saveInfosize k info.bmiHeader)).faults = [] := by
    split
    · exact p2
    · exact hf1
  obtain ⟨q1, _⟩ := fwrite_ok
    (swapRedBlue bits info.bmiHeader.biWidth info.bmiHeader.biHeight) 1
    (bitmapBitsize info.bmiHeader % 2 ^ sizeBits).toNat _ hf2
  rw [if_neg (by
    rw [q1, if_neg (by omega)]
    exact Nat.lt_irrefl _)]

/-- The caller's buffer after a call that got past the palette: the red/blue
exchange applied to it. -/
theorem SaveDIBitmap_bits (k : BitmapH) (sizeBits : Nat) (fp : OutFile)
    (info : BITMAPINFO) (bits : List Nat) (h : fp.faults = []) :
    (SaveDIBitmap k sizeBits (some fp) info bits).bits
      = swapRedBlue bits info.bmiHeader.biWidth info.bmiHeader.biHeight := by
  have hf1 : (writeHeaders k fp info.bmiHeader
      (wrapInt32 ((k.sizeofBITMAPFILEHEADER : Int) + saveInfosize k info.bmiHeader
        + bitmapBitsize info.bmiHeader)) (saveInfosize k info.bmiHeader)).faults = [] := by
    rw [writeHeaders_faults, h]
    rfl
  obtain ⟨p1, _⟩ := fwrite_ok info.bmiColors (saveInfosize k info.bmiHeader - 40).toNat 1 _ hf1
  unfold SaveDIBitmap
  simp only
  rw [if_neg (by
    rintro ⟨h40, hlt⟩
    rw [p1, if_neg (by omega)] at hlt
    omega)]
  simp only [apply_ite SaveResult.bits, ite_self]

theorem write_word_return (fp : OutFile) (w : Nat)
    (h : ∀ b ∈ fp.faults, b = false) :
    (write_word fp w).1 = ((w / 2 ^ 8 % 256 : Nat) : Int) := by
  obtain ⟨_, _, f0⟩ := putc_ok (w : Int) fp h
  obtain ⟨r1, _, _⟩ := putc_ok ((w >>> 8 : Nat) : Int) _ f0
  unfold write_word
  rw [r1, toUChar_natCast, Nat.shiftRight_eq_div_pow]

theorem write_dword_return (fp : OutFile) (dw : Nat)
    (h : ∀ b ∈ fp.faults, b = false) :
    (write_dword fp dw).1 = ((dw / 2 ^ 24 % 256 : Nat) : Int) := by
  obtain ⟨_, _, f0⟩ := putc_ok (dw : Int) fp h
  obtain ⟨_, _, f1⟩ := putc_ok ((dw >>> 8 : Nat) : Int) _ f0
  obtain ⟨_, _, f2⟩ := putc_ok ((dw >>> 16 : Nat) : Int) _ f1
  obtain ⟨r3, _, _⟩ := putc_ok ((dw >>> 24 : Nat) : Int) _ f2
  unfold write_dword
  rw [r3, toUChar_natCast, Nat.shiftRight_eq_div_pow]

theorem write_long_return (fp : OutFile) (l : Int)
    (h : ∀ b ∈ fp.faults, b = false) :
    (write_long fp l).1 = (toUChar (l >>> (24 : Nat)) : Int) := by
  obtain ⟨_, _, f0⟩ := putc_ok l fp h
  obtain ⟨_, _, f1⟩ := putc_ok (l >>> (8 : Nat)) _ f0
  obtain ⟨_, _, f2⟩ := putc_ok (l >>> (16 : Nat)) _ f1
  obtain ⟨r3, _, _⟩ := putc_ok (l >>> (24 : Nat)) _ f2
  unfold write_long
  rw [r3]

/-- C12: evaluation where every byte write succeeds: `write_word(fp, 0x4D42)`
returns `0x4D`, `write_dword(fp, 0x12345678)` returns `0x12` and
`write_long(fp, -2)` returns `0xFF`, the value of `putc` for the last byte and
not 0; and when the first byte write of `write_word` fails and the second
succeeds, the result is again `0x4D` and not -1. -/
theorem write_functions_return_last_putc :
    write_word ⟨[], []⟩ 0x4D42 = (0x4D, ⟨[0x42, 0x4D], []⟩) ∧
    write_dword ⟨[], []⟩ 0x12345678 = (0x12, ⟨[0x78, 0x56, 0x34, 0x12], []⟩) ∧
    write_long ⟨[], []⟩ (-2) = (0xFF, ⟨[0xFE, 0xFF, 0xFF, 0xFF], []⟩) ∧
    write_word ⟨[], [true]⟩ 0x4D42 = (0x4D, ⟨[0x4D], []⟩) := by
  decide

/-- C11: evaluation for a 1x1 24-bit image with pixel bytes 1, 2, 3.  When
the first byte write (the low byte of `BF_TYPE`) fails and the others succeed,
`SaveDIBitmap` returns 0 although the file lacks that byte; when all 54 header
byte writes fail and the pixel write succeeds, it returns 0 and the file holds
the three pixel bytes only. -/
theorem SaveDIBitmap_header_failure_returns_zero :
    SaveDIBitmap customaryBitmapH 64 (some ⟨[], List.replicate 54 true⟩) onePixelInfo
        [1, 2, 3]
      = ⟨0, some ⟨[3, 2, 1], []⟩, [3, 2, 1]⟩ ∧
    (SaveDIBitmap customaryBitmapH 64 (some ⟨[], [true]⟩) onePixelInfo [1, 2, 3]).ret = 0 ∧
    (SaveDIBitmap customaryBitmapH 64 (some ⟨[], [true]⟩) onePixelInfo [1, 2, 3]).file
      = some ⟨[0x4D, 57, 0, 0, 0, 0, 0, 0, 0, 58, 0, 0, 0,
          40, 0, 0, 0, 1, 0, 0, 0, 1, 0, 0, 0, 1, 0, 24, 0, 0, 0, 0, 0, 0, 0, 0, 0,
          0, 0, 0, 0, 0, 0, 0, 0, 0, 0, 0, 0, 0, 0, 0, 0, 3, 2, 1], []⟩ := by
  decide

/-- C13: evaluation for a 1x1 24-bit image whose pixel buffer holds 1, 2, 3,
every write succeeding: the call returns 0 and the caller's buffer holds
3, 2, 1 afterwards. -/
theorem SaveDIBitmap_swaps_caller_buffer :
    (SaveDIBitmap customaryBitmapH 64 (some ⟨[], []⟩) onePixelInfo [1, 2, 3]).ret = 0 ∧
    (SaveDIBitmap customaryBitmapH 64 (some ⟨[], []⟩) onePixelInfo [1, 2, 3]).bits
      = [3, 2, 1] := by
  decide

/-! ## Theorems: `files/bitmap.c`, `channelChange` -/

theorem getD_set_nat (l : List Nat) (i j v : Nat) :
    (l.set i v).getD j 0 = if i = j ∧ i < l.length then v else l.getD j 0 := by
  simp only [List.getD_eq_getElem?_getD, List.getElem?_set]
  by_cases h : i = j
  · subst h
    by_cases h2 : i < l.length
    · simp [h2]
    · simp [h2, List.getElem?_eq_none (Nat.le_of_not_lt h2)]
  · simp [h]

theorem take4_drop (l : List Nat) (n : Nat) (h : n + 4 ≤ l.length) :
    (l.drop n).take 4
      = [l.getD n 0, l.getD (n + 1) 0, l.getD (n + 2) 0, l.getD (n + 3) 0] := by
  induction n generalizing l with
  | zero =>
    match l, h with
    | a :: b :: c :: d :: rest, _ => simp
  | succ n ih =>
    match l, h with
    | x :: l', h =>
      have := ih l' (by simpa using h)
      simp only [List.drop_succ_cons, this]
      simp [Nat.add_right_comm]

/-- A store inside the block succeeds. -/
theorem storeByte_ok (dst : List Nat) (i v : Nat) (h : i < dst.length) :
    storeByte dst i v = some (dst.set i v) := by
  unfold storeByte
  rw [if_pos h]

/-- A load inside the block gives the byte at that offset. -/
theorem load_ok (data : List Nat) (i : Nat) (h : i < data.length) :
    data[i]? = some (data.getD i 0) := by
  rw [List.getD_eq_getElem?_getD, List.getElem?_eq_getElem h]
  rfl

/-- An expected pixel has four bytes. -/
theorem expectedPixel_length (c : Int) (data : List Nat) (k : Nat) :
    (expectedPixel c data k).length = 4 := by
  unfold expectedPixel
  split <;> rfl

/-- One pass of the inner loop whose loads and stores stay inside the two
blocks writes the expected pixel `q`. -/
theorem channelChangeRow_step (c : Int) (hc : c = 1 ∨ c = 3) (data : List Nat)
    (j q : Nat) (dst : List Nat) (hd : 4 * q + 4 ≤ dst.length)
    (hs : c.toNat * q + c.toNat ≤ data.length) :
    channelChangeRow c data (j + 1) (c.toNat * q) (4 * q) dst
      = channelChangeRow c data j (c.toNat * (q + 1)) (4 * (q + 1))
          ((((dst.set (4 * q) ((expectedPixel c data q).getD 0 0)).set (4 * q + 1)
            ((expectedPixel c data q).getD 1 0)).set (4 * q + 2)
            ((expectedPixel c data q).getD 2 0)).set (4 * q + 3)
            ((expectedPixel c data q).getD 3 0)) := by
  rcases hc with rfl | rfl
  · have h1 : (1 : Int).toNat = 1 := rfl
    rw [h1] at hs ⊢
    rw [Nat.one_mul] at hs ⊢
    conv_lhs => rw [channelChangeRow]
    rw [if_pos rfl, load_ok data q (by omega), Option.some_bind,
      storeByte_ok _ _ _ (by omega), Option.some_bind,
      storeByte_ok _ _ _ (by simp only [List.length_set]; omega), Option.some_bind,
      storeByte_ok _ _ _ (by simp only [List.length_set]; omega), Option.some_bind,
      storeByte_ok _ _ _ (by simp only [List.length_set]; omega), Option.some_bind]
    simp [expectedPixel, Nat.mul_add]
  · have h3 : (3 : Int).toNat = 3 := rfl
    rw [h3] at hs ⊢
    conv_lhs => rw [channelChangeRow]
    rw [if_neg (by decide), if_pos rfl, load_ok data (3 * q) (by omega), Option.some_bind,
      storeByte_ok _ _ _ (by omega), Option.some_bind,
      load_ok data (3 * q + 1) (by omega), Option.some_bind,
      storeByte_ok _ _ _ (by simp only [List.length_set]; omega), Option.some_bind,
      load_ok data (3 * q + 2) (by omega), Option.some_bind,
      storeByte_ok _ _ _ (by simp only [List.length_set]; omega), Option.some_bind,
      storeByte_ok _ _ _ (by simp only [List.length_set]; omega), Option.some_bind]
    simp [expectedPixel, Nat.mul_add]

/-- Bytes of a buffer after the four writes of one pixel. -/
theorem getD_pixel_write (dst pix : List Nat) (q t : Nat)
    (hlen : 4 * q + 4 ≤ dst.length) :
    ((((dst.set (4 * q) (pix.getD 0 0)).set (4 * q + 1) (pix.getD 1 0)).set
        (4 * q + 2) (pix.getD 2 0)).set (4 * q + 3) (pix.getD 3 0)).getD t 0
      = if 4 * q ≤ t ∧ t < 4 * q + 4 then pix.getD (t - 4 * q) 0 else dst.getD t 0 := by
  simp only [getD_set_nat, List.length_set]
  by_cases h3 : 4 * q + 3 = t
  · subst h3
    rw [if_pos ⟨rfl, by omega⟩, if_pos ⟨by omega, by omega⟩]
    congr 1
    omega
  · rw [if_neg (fun h => h3 h.1)]
    by_cases h2 : 4 * q + 2 = t
    · subst h2
      rw [if_pos ⟨rfl, by omega⟩, if_pos ⟨by omega, by omega⟩]
      congr 1
      omega
    · rw [if_neg (fun h => h2 h.1)]
      by_cases h1 : 4 * q + 1 = t
      · subst h1
        rw [if_pos ⟨rfl, by omega⟩, if_pos ⟨by omega, by omega⟩]
        congr 1
        omega
      · rw [if_neg (fun h => h1 h.1)]
        by_cases h0 : 4 * q = t
        · subst h0
          rw [if_pos ⟨rfl, by omega⟩, if_pos ⟨by omega, by omega⟩]
          congr 1
          omega
        · rw [if_neg (fun h => h0 h.1), if_neg (by omega)]

/-- Effect of the inner loop started at pixel `q` when the `n` pixels fit both
blocks: it has a result, of the length of the destination, in which the bytes
of pixels `q, ..., q + n - 1` are the expected ones and the others are
untouched. -/
theorem channelChangeRow_getD (c : Int) (hc : c = 1 ∨ c = 3) (data : List Nat) :
    ∀ (n q : Nat) (dst : List Nat), 4 * (q + n) ≤ dst.length →
      c.toNat * (q + n) ≤ data.length →
      ∃ out, channelChangeRow c data n (c.toNat * q) (4 * q) dst = some out ∧
        out.length = dst.length ∧
        ∀ t, out.getD t 0
          = if 4 * q ≤ t ∧ t < 4 * (q + n) then
              (expectedPixel c data (t / 4)).getD (t % 4) 0
            else dst.getD t 0 := by
  intro n
  induction n with
  | zero =>
    intro q dst _ _
    refine ⟨dst, rfl, rfl, fun t => ?_⟩
    rw [if_neg (by omega)]
  | succ n ih =>
    intro q dst hlen hsrc
    have hsrc1 : c.toNat * (q + (n + 1)) = c.toNat * q + c.toNat + c.toNat * n := by ring
    have hsrc2 : c.toNat * (q + 1 + n) = c.toNat * q + c.toNat + c.toNat * n := by ring
    obtain ⟨out, ho, hl, hg⟩ := ih (q + 1)
      ((((dst.set (4 * q) ((expectedPixel c data q).getD 0 0)).set (4 * q + 1)
            ((expectedPixel c data q).getD 1 0)).set (4 * q + 2)
            ((expectedPixel c data q).getD 2 0)).set (4 * q + 3)
            ((expectedPixel c data q).getD 3 0))
      (by simp only [List.length_set]; omega) (by rw [hsrc2]; omega)
    refine ⟨out, ?_, ?_, fun t => ?_⟩
    · rw [channelChangeRow_step c hc data n q dst (by omega) (by omega), ho]
    · rw [hl]
      simp only [List.length_set]
    · rw [hg t, getD_pixel_write dst _ q t (by omega)]
      by_cases ha : 4 * (q + 1) ≤ t ∧ t < 4 * (q + 1 + n)
      · rw [if_pos ha, if_pos (by omega)]
      · rw [if_neg ha]
        by_cases hb : 4 * q ≤ t ∧ t < 4 * q + 4
        · rw [if_pos hb, if_pos (by omega)]
          have e1 : t / 4 = q := by omega
          have e2 : t % 4 = t - 4 * q := by omega
          rw [e1, e2]
        · rw [if_neg hb, if_neg (by omega)]

/-- Effect of the outer loop from row `i` on, as long as the offsets stay
below `2 ^ 32` and the pixels fit both blocks. -/
theorem channelChangeRows_getD (c : Int) (hc : c = 1 ∨ c = 3) (data : List Nat)
    (width : Nat) :
    ∀ (rows i : Nat) (dst : List Nat),
      4 * ((i + rows) * width) ≤ dst.length → 4 * ((i + rows) * width) < 2 ^ 32 →
      c.toNat * ((i + rows) * width) ≤ data.length →
      ∃ out, channelChangeRows c data width rows i dst = some out ∧
        out.length = dst.length ∧
        ∀ t, out.getD t 0
          = if 4 * (i * width) ≤ t ∧ t < 4 * ((i + rows) * width) then
              (expectedPixel c data (t / 4)).getD (t % 4) 0
            else dst.getD t 0 := by
  intro rows
  induction rows with
  | zero =>
    intro i dst _ _ _
    refine ⟨dst, rfl, rfl, fun t => ?_⟩
    rw [if_neg (by simp)]
  | succ rows ih =>
    intro i dst hlen hfit hsrc
    have hsplit : (i + (rows + 1)) * width = i * width + width + rows * width := by ring
    have hnext : (i + 1 + rows) * width = i * width + width + rows * width := by ring
    have hi1 : (i + 1) * width = i * width + width := by ring
    have hcn : (c % 2 ^ 32).toNat = c.toNat ∧ c.toNat ≤ 3 := by
      rcases hc with rfl | rfl <;> exact ⟨by decide, by decide⟩
    have hm1 : i * width % 2 ^ 32 = i * width := Nat.mod_eq_of_lt (by omega)
    have hsrcOff : i * width * c.toNat % 2 ^ 32 = c.toNat * (i * width) := by
      have : i * width * c.toNat ≤ i * width * 3 := Nat.mul_le_mul_left _ hcn.2
      rw [Nat.mod_eq_of_lt (by omega), Nat.mul_comm]
    have hdst : i * width * 4 % 2 ^ 32 = 4 * (i * width) := by
      rw [Nat.mod_eq_of_lt (by omega), Nat.mul_comm]
    have hc1 : c.toNat * ((i + (rows + 1)) * width)
        = c.toNat * (i * width + width) + c.toNat * (rows * width) := by
      rw [hsplit]; ring
    have hc2 : c.toNat * ((i + 1 + rows) * width)
        = c.toNat * (i * width + width) + c.toNat * (rows * width) := by
      rw [hnext]; ring
    obtain ⟨row, hr, hrl, hrg⟩ := channelChangeRow_getD c hc data width (i * width) dst
      (by omega) (by omega)
    obtain ⟨out, ho, hol, hog⟩ := ih (i + 1) row (by rw [hrl, hnext]; omega)
      (by rw [hnext]; omega) (by rw [hc2]; omega)
    refine ⟨out, ?_, by rw [hol, hrl], fun t => ?_⟩
    · unfold channelChangeRows
      simp only
      rw [hm1, hcn.1, hsrcOff, hdst, hr, Option.some_bind, ho]
    · rw [hog t, hrg t, hnext, hi1, hsplit]
      by_cases ha : 4 * (i * width + width) ≤ t ∧ t < 4 * (i * width + width + rows * width)
      · rw [if_pos ha, if_pos (by omega)]
      · rw [if_neg ha]
        by_cases hb : 4 * (i * width) ≤ t ∧ t < 4 * (i * width + width)
        · rw [if_pos hb, if_pos (by omega)]
        · rw [if_neg hb, if_neg (by omega)]

/-- When the size `width * height * 4` wraps to 0 for a one-channel image
that is not empty, the first store of the first pixel is outside the block of
0 bytes: no buffer is returned. -/
theorem channelChange_block_of_no_bytes (data : List Nat) (width height : Nat)
    (hw : 0 < width) (hh : 0 < height) (h0 : width * height * 4 % 2 ^ 32 = 0) :
    channelChange true 1 data width height = none := by
  obtain ⟨w, rfl⟩ : ∃ w, width = w + 1 := ⟨width - 1, by omega⟩
  obtain ⟨h, rfl⟩ : ∃ h, height = h + 1 := ⟨height - 1, by omega⟩
  unfold channelChange
  rw [if_neg (by decide), h0]
  unfold channelChangeRows
  simp only [Nat.zero_mul, Nat.zero_mod]
  unfold channelChangeRow
  rw [if_pos rfl]
  cases hd : data[0]? with
  | none => rfl
  | some p => rfl

/-- C14, counterexample: a one-channel image of width `2 ^ 30` and height 1
(a source buffer of `2 ^ 30` bytes).  `width * height * 4` is `2 ^ 32`, which
is 0 in `unsigned int` arithmetic, so the block asked of `calloc` has 0 bytes,
not `2 ^ 32`; the first pixel is stored outside it, which is undefined, and no
buffer of `2 ^ 32` bytes is returned.  And when `calloc` fails no buffer is
returned either. -/
theorem channelChange_size_overflow :
    (List.replicate (2 ^ 30) 7).length = 2 ^ 30 * 1 * 1 ∧
    (2 ^ 30 * 1 * 4 : Nat) % 2 ^ 32 = 0 ∧
    channelChange true 1 (List.replicate (2 ^ 30) 7) (2 ^ 30) 1 = none ∧
    channelChange false 1 [7] 1 1 = none := by
  refine ⟨by rw [List.length_replicate]; norm_num, by norm_num, ?_, rfl⟩
  exact channelChange_block_of_no_bytes _ _ _ (by norm_num) (by norm_num) (by norm_num)

/-- C14 as amended: for `imageChannel` 1 or 3, when `width * height * 4` is
below `2 ^ 32` and `calloc` succeeds, `channelChange` returns a buffer of
`width * height * 4` bytes; for a source
buffer of `width * height * imageChannel` bytes every pixel `k` has its source
bytes in the buffer, and pixel `k` of the result is `(p, p, p, 0)` with `p`
the k-th source byte for one channel and `(s0, s1, s2, 0)` with the three
bytes of the k-th source pixel for three channels. -/
theorem channelChange_pixels (imageChannel : Int) (data : List Nat)
    (width height : Nat) (hc : imageChannel = 1 ∨ imageChannel = 3)
    (hfit : width * height * 4 < 2 ^ 32)
    (hdata : data.length = width * height * imageChannel.toNat) :
    ∃ out, channelChange true imageChannel data width height = some out ∧
      out.length = width * height * 4 ∧
      ∀ k, k < width * height →
        imageChannel.toNat * k + imageChannel.toNat ≤ data.length ∧
        pixelAt out k = expectedPixel imageChannel data k := by
  have hmod : width * height * 4 % 2 ^ 32 = width * height * 4 := Nat.mod_eq_of_lt hfit
  have hwh : (0 + height) * width = width * height := by ring
  obtain ⟨out, ho, hlen0, hget⟩ := channelChangeRows_getD imageChannel hc data width height 0
    (List.replicate (width * height * 4 % 2 ^ 32) 0)
    (by rw [List.length_replicate, hmod, hwh]; omega) (by rw [hwh]; omega)
    (by rw [hwh, hdata, Nat.mul_comm])
  have hlen : out.length = width * height * 4 := by
    rw [hlen0, List.length_replicate, hmod]
  refine ⟨out, ?_, hlen, ?_⟩
  · unfold channelChange
    rw [if_neg (by decide), ho]
  · intro k hk
    refine ⟨?_, ?_⟩
    · rw [hdata, Nat.mul_comm (width * height)]
      have : imageChannel.toNat * (k + 1) ≤ imageChannel.toNat * (width * height) :=
        Nat.mul_le_mul_left _ hk
      rw [Nat.mul_add, Nat.mul_one] at this
      exact this
    unfold pixelAt
    rw [take4_drop _ _ (by rw [hlen]; omega)]
    rw [hget, hget, hget, hget]
    rw [if_pos (by rw [hwh]; omega), if_pos (by rw [hwh]; omega),
      if_pos (by rw [hwh]; omega), if_pos (by rw [hwh]; omega)]
    have e0 : 4 * k / 4 = k := by omega
    have e1 : (4 * k + 1) / 4 = k := by omega
    have e2 : (4 * k + 2) / 4 = k := by omega
    have e3 : (4 * k + 3) / 4 = k := by omega
    have m0 : 4 * k % 4 = 0 := by omega
    have m1 : (4 * k + 1) % 4 = 1 := by omega
    have m2 : (4 * k + 2) % 4 = 2 := by omega
    have m3 : (4 * k + 3) % 4 = 3 := by omega
    rw [e0, e1, e2, e3, m0, m1, m2, m3]
    unfold expectedPixel
    split <;> rfl

/-- Witness for C14 as amended: a 2x2 three-channel image. -/
theorem channelChange_pixels_witness :
    ∃ out, channelChange true 3 [1, 2, 3, 4, 5, 6, 7, 8, 9, 10, 11, 12] 2 2 = some out ∧
      out.length = 2 * 2 * 4 ∧
      ∀ k, k < 2 * 2 →
        (3 : Int).toNat * k + (3 : Int).toNat
            ≤ [1, 2, 3, 4, 5, 6, 7, 8, 9, 10, 11, 12].length ∧
        pixelAt out k = expectedPixel 3 [1, 2, 3, 4, 5, 6, 7, 8, 9, 10, 11, 12] k :=
  channelChange_pixels 3 [1, 2, 3, 4, 5, 6, 7, 8, 9, 10, 11, 12] 2 2
    (Or.inr rfl) (by norm_num) (by decide)

end Bitmap

end Device2Device
